import Mathlib

/-!
# Verification of `src/src/red_black.rs`

Shallow embedding of the intrusive left-leaning red-black tree
(`Tree<T>` in `src/src/red_black.rs`, a port of jemalloc's `rb.h`).

Modelling choices, faithful to the source:

* Raw pointers `*mut T` become `Ptr := Nat`; `0` is the null pointer and
  `nilP := 1` is the address of the tree's embedded sentinel `nil`
  (`Tree::nil_ref`, line 126).  The element store is an association list
  `Heap`; dereferencing an unallocated pointer is the error `dangling`.
* An element `T` with its embedded `Node<T>` (lines 16-19) becomes `Rec`:
  `left`, the pointer half and the colour bit of `right_red`, and the
  caller payload used by `partial_cmp`, modelled as `key : Option Int`
  where `none` means the payload was never initialised.  `Tree::init`
  (lines 118-124) initialises only the sentinel's `Node` field, so the
  sentinel's `key` is `none`, and comparing against it is the
  uninitialised read `uninitKey`.
* The caller's `PartialOrd` comparison is a parameter
  `cmp : Int → Int → Option Ordering`; `none` models `Incomparable`.
* `insert`/`remove` build a stack-local
  `path: [PathElem<T>, ..BITS << 1]` of 128 entries via
  `unsafe { uninitialized() }` (lines 280, 364).  The path is modelled as
  `Path := Nat → Slot` where a slot field still holding `none` is an
  uninitialised `PathElem` field; reading one is the error `uninitSlot`.
  Iterator positions of `path.iter_mut()` are tracked as indices; an
  `iter.next().unwrap()` past the end is the panic `oob`.
* `loop { .. }` becomes fuelled recursion; exhausting fuel is `fuelOut`.
  `assert!`/`debug_assert!`/`unreachable!` become the errors
  `assertFail` / `unreachableHit`.
* The traversal visitor `F: FnMut(&mut Self, *mut T) -> Option<A>` becomes
  a state-threaded callback `CS → Ptr → CS × Option A`.
-/

namespace RedBlack

/-- Machine pointers; `0` is the null pointer. -/
abbrev Ptr := Nat

/-- Address of the tree's embedded sentinel (`Tree::nil_ref`, line 126);
a genuine non-null address distinct from every caller element. -/
def nilP : Ptr := 1

/-- One caller element together with its embedded `Node<T>` linkage
(lines 16-19): `left`, the pointer and colour halves of `right_red`,
and the caller payload key (`none` = payload never initialised). -/
structure Rec where
  left : Ptr
  right : Ptr
  red : Bool
  key : Option Int
deriving DecidableEq, Repr

/-- The element store. -/
abbrev Heap := List (Ptr × Rec)

/-- Failure modes of the embedded code: dangling dereference, read of an
uninitialised payload / path slot, fuel exhaustion of a source `loop`,
a failing `assert!`, a reached `unreachable!`, and an `unwrap()` panic
when a path iterator runs off the 128-entry array. -/
inductive Err where
  | dangling
  | uninitKey
  | uninitSlot
  | fuelOut
  | assertFail
  | unreachableHit
  | oob
deriving DecidableEq, Repr

def lookupH : Heap → Ptr → Option Rec
  | [], _ => none
  | (q, r) :: t, p => if q = p then some r else lookupH t p

def setH : Heap → Ptr → Rec → Heap
  | [], _, _ => []
  | (q, r0) :: t, p, r => if q = p then (q, r) :: t else (q, r0) :: setH t p r

/-- Dereference a pointer (`ptr.field()` / `&*ptr`). -/
def lookupE (h : Heap) (p : Ptr) : Except Err Rec :=
  match lookupH h p with
  | some r => .ok r
  | none => .error .dangling

/-- Read the payload key of the element at `p`, as `partial_cmp` does;
an uninitialised payload (the sentinel's) is an uninitialised read. -/
def keyE (h : Heap) (p : Ptr) : Except Err Int :=
  match lookupE h p with
  | .error e => .error e
  | .ok r =>
    match r.key with
    | some k => .ok k
    | none => .error .uninitKey

/-- `ptr.field().color()` (line 64). -/
def colorE (h : Heap) (p : Ptr) : Except Err Bool :=
  match lookupE h p with
  | .error e => .error e
  | .ok r => .ok r.red

/-- Mutate the element at `p`; writing through a dangling pointer fails. -/
def writeE (h : Heap) (p : Ptr) (f : Rec → Rec) : Except Err Heap :=
  match lookupE h p with
  | .error e => .error e
  | .ok r => .ok (setH h p (f r))

/-- `Tree::sanitize` (lines 156-162): map the sentinel to null. -/
def sanitize (p : Ptr) : Ptr :=
  if p = nilP then 0 else p

/-- The caller's comparison capability: `partial_cmp` on payload keys,
`none` standing for `Incomparable`. -/
abbrev Cmp := Int → Int → Option Ordering

/-- A comparison that first maps `Incomparable` to `Less` (spec §4.2's
normalisation, applied up front). -/
def normCmp (cmp : Cmp) : Cmp := fun a b =>
  match cmp a b with
  | none => some .lt
  | c => c

/-- The total comparison on integer keys used for concrete runs. -/
def icmp : Cmp := fun a b =>
  some (if a < b then .lt else if a = b then .eq else .gt)

/-- `(*a).partial_cmp(&*b)` for a probe key `a` held by the caller and an
element pointer `b`: reads `b`'s payload. -/
def pcmpK (cmp : Cmp) (h : Heap) (a : Int) (b : Ptr) : Except Err (Option Ordering) :=
  match keyE h b with
  | .error e => .error e
  | .ok kb => .ok (cmp a kb)

/-- `(*a).partial_cmp(&*b)` for two element pointers: reads both payloads. -/
def pcmpPP (cmp : Cmp) (h : Heap) (a b : Ptr) : Except Err (Option Ordering) :=
  match keyE h a with
  | .error e => .error e
  | .ok ka =>
    match keyE h b with
    | .error e => .error e
    | .ok kb => .ok (cmp ka kb)

/-- `NodeExt::rotate_left` (lines 82-87). -/
def rotateLeft (h : Heap) (p : Ptr) : Except Err (Heap × Ptr) :=
  match lookupE h p with
  | .error e => .error e
  | .ok pr =>
    match lookupE h pr.right with
    | .error e => .error e
    | .ok orr =>
      match writeE h p (fun r => { r with right := orr.left }) with
      | .error e => .error e
      | .ok h1 =>
        match writeE h1 pr.right (fun r => { r with left := p }) with
        | .error e => .error e
        | .ok h2 => .ok (h2, pr.right)

/-- `NodeExt::rotate_right` (lines 90-96). -/
def rotateRight (h : Heap) (p : Ptr) : Except Err (Heap × Ptr) :=
  match lookupE h p with
  | .error e => .error e
  | .ok pr =>
    match lookupE h pr.left with
    | .error e => .error e
    | .ok olr =>
      match writeE h p (fun r => { r with left := olr.right }) with
      | .error e => .error e
      | .ok h1 =>
        match writeE h1 pr.left (fun r => { r with right := p }) with
        | .error e => .error e
        | .ok h2 => .ok (h2, pr.left)

/-! ## Queries (`Tree::first_` .. `Tree::psearch`, lines 132-276)

Each source `while`/`loop` becomes a fuelled recursion over the ambient
heap; the public operation returns the sanitised pointer together with
the heap it finishes with (the `&mut self` the caller gets back). -/

/-- Loop of `Tree::first_` (lines 136-140): descend left links. -/
def firstLoop (h : Heap) : Nat → Ptr → Except Err Ptr
  | 0, _ => .error .fuelOut
  | f + 1, p =>
    match lookupE h p with
    | .error e => .error e
    | .ok r => if r.left = nilP then .ok p else firstLoop h f r.left

/-- `Tree::first_` (lines 132-142). -/
def firstU (h : Heap) (fuel : Nat) (p : Ptr) : Except Err Ptr :=
  if p = nilP then .ok p else firstLoop h fuel p

/-- Loop of `Tree::last_` (lines 148-152): descend right links. -/
def lastLoop (h : Heap) : Nat → Ptr → Except Err Ptr
  | 0, _ => .error .fuelOut
  | f + 1, p =>
    match lookupE h p with
    | .error e => .error e
    | .ok r => if r.right = nilP then .ok p else lastLoop h f r.right

/-- `Tree::last_` (lines 144-154). -/
def lastU (h : Heap) (fuel : Nat) (p : Ptr) : Except Err Ptr :=
  if p = nilP then .ok p else lastLoop h fuel p

/-- `Tree::first` (lines 164-168). -/
def firstS (h : Heap) (fuel : Nat) (root : Ptr) : Except Err (Ptr × Heap) :=
  match firstU h fuel root with
  | .error e => .error e
  | .ok p => .ok (sanitize p, h)

/-- `Tree::last` (lines 170-174). -/
def lastS (h : Heap) (fuel : Nat) (root : Ptr) : Except Err (Ptr × Heap) :=
  match lastU h fuel root with
  | .error e => .error e
  | .ok p => .ok (sanitize p, h)

/-- Loop of `Tree::search` (lines 227-234): `ret` is the cursor. -/
def searchLoop (cmp : Cmp) (h : Heap) (k : Int) : Nat → Ptr → Except Err Ptr
  | 0, _ => .error .fuelOut
  | f + 1, ret =>
    if ret = nilP then .ok ret
    else
      match pcmpK cmp h k ret with
      | .error e => .error e
      | .ok c =>
        match lookupE h ret with
        | .error e => .error e
        | .ok r =>
          match c with
          | none | some .lt => searchLoop cmp h k f r.left
          | some .gt => searchLoop cmp h k f r.right
          | some .eq => .ok ret

/-- `Tree::search` (lines 225-236). -/
def searchS (cmp : Cmp) (fuel : Nat) (h : Heap) (k : Int) (root : Ptr) :
    Except Err (Ptr × Heap) :=
  match searchLoop cmp h k fuel root with
  | .error e => .error e
  | .ok p => .ok (sanitize p, h)

/-- Loop of `Tree::nsearch` (lines 242-254).  Faithful to the source: the
probe is compared against the remembered candidate `ret` — initially the
sentinel — not against the cursor `tnode`, and the `Greater` arm follows
`ret.field().right()`. -/
def nsearchLoop (cmp : Cmp) (h : Heap) (k : Int) : Nat → Ptr → Ptr → Except Err Ptr
  | 0, _, _ => .error .fuelOut
  | f + 1, ret, tnode =>
    if tnode = nilP then .ok ret
    else
      match pcmpK cmp h k ret with
      | .error e => .error e
      | .ok c =>
        match c with
        | none | some .lt =>
          match lookupE h tnode with
          | .error e => .error e
          | .ok r => nsearchLoop cmp h k f tnode r.left
        | some .gt =>
          match lookupE h ret with
          | .error e => .error e
          | .ok r => nsearchLoop cmp h k f ret r.right
        | some .eq => .ok tnode

/-- `Tree::nsearch` (lines 238-256). -/
def nsearchS (cmp : Cmp) (fuel : Nat) (h : Heap) (k : Int) (root : Ptr) :
    Except Err (Ptr × Heap) :=
  match nsearchLoop cmp h k fuel nilP root with
  | .error e => .error e
  | .ok p => .ok (sanitize p, h)

/-- Loop of `Tree::psearch` (lines 262-273), same comparison target as
`nsearch` (the remembered candidate `ret`). -/
def psearchLoop (cmp : Cmp) (h : Heap) (k : Int) : Nat → Ptr → Ptr → Except Err Ptr
  | 0, _, _ => .error .fuelOut
  | f + 1, ret, tnode =>
    if tnode = nilP then .ok ret
    else
      match pcmpK cmp h k ret with
      | .error e => .error e
      | .ok c =>
        match c with
        | none | some .lt =>
          match lookupE h ret with
          | .error e => .error e
          | .ok r => psearchLoop cmp h k f ret r.left
        | some .gt =>
          match lookupE h tnode with
          | .error e => .error e
          | .ok r => psearchLoop cmp h k f tnode r.right
        | some .eq => .ok tnode

/-- `Tree::psearch` (lines 258-276). -/
def psearchS (cmp : Cmp) (fuel : Nat) (h : Heap) (k : Int) (root : Ptr) :
    Except Err (Ptr × Heap) :=
  match psearchLoop cmp h k fuel nilP root with
  | .error e => .error e
  | .ok p => .ok (sanitize p, h)

/-- Loop of `Tree::next` (lines 186-196): walk down from the root
comparing `node` against the cursor, remembering the last
less-or-incomparable ancestor; `assert!(tnode != nil)` after each step. -/
def nextLoop (cmp : Cmp) (h : Heap) (np : Ptr) : Nat → Ptr → Ptr → Except Err Ptr
  | 0, _, _ => .error .fuelOut
  | f + 1, tnode, ret =>
    match pcmpPP cmp h np tnode with
    | .error e => .error e
    | .ok c =>
      match c with
      | none | some .lt =>
        match lookupE h tnode with
        | .error e => .error e
        | .ok r =>
          if r.left = nilP then .error .assertFail
          else nextLoop cmp h np f r.left tnode
      | some .gt =>
        match lookupE h tnode with
        | .error e => .error e
        | .ok r =>
          if r.right = nilP then .error .assertFail
          else nextLoop cmp h np f r.right ret
      | some .eq => .ok ret

/-- `Tree::next` (lines 176-199). -/
def nextS (cmp : Cmp) (fuel : Nat) (h : Heap) (root np : Ptr) :
    Except Err (Ptr × Heap) :=
  if np = 0 then .error .assertFail
  else
    match lookupE h np with
    | .error e => .error e
    | .ok nrec =>
      if nrec.right ≠ nilP then
        match firstU h fuel nrec.right with
        | .error e => .error e
        | .ok p => .ok (sanitize p, h)
      else
        if root = nilP then .error .assertFail
        else
          match nextLoop cmp h np fuel root nilP with
          | .error e => .error e
          | .ok p => .ok (sanitize p, h)

/-- Loop of `Tree::prev` (lines 210-220): symmetric to `nextLoop`,
remembering the last `Greater` ancestor. -/
def prevLoop (cmp : Cmp) (h : Heap) (np : Ptr) : Nat → Ptr → Ptr → Except Err Ptr
  | 0, _, _ => .error .fuelOut
  | f + 1, tnode, ret =>
    match pcmpPP cmp h np tnode with
    | .error e => .error e
    | .ok c =>
      match c with
      | none | some .lt =>
        match lookupE h tnode with
        | .error e => .error e
        | .ok r =>
          if r.left = nilP then .error .assertFail
          else prevLoop cmp h np f r.left ret
      | some .gt =>
        match lookupE h tnode with
        | .error e => .error e
        | .ok r =>
          if r.right = nilP then .error .assertFail
          else prevLoop cmp h np f r.right tnode
      | some .eq => .ok ret

/-- `Tree::prev` (lines 201-223). -/
def prevS (cmp : Cmp) (fuel : Nat) (h : Heap) (root np : Ptr) :
    Except Err (Ptr × Heap) :=
  match lookupE h np with
  | .error e => .error e
  | .ok nrec =>
    if nrec.left ≠ nilP then
      match lastU h fuel nrec.left with
      | .error e => .error e
      | .ok p => .ok (sanitize p, h)
    else
      if root = nilP then .error .assertFail
      else
        match prevLoop cmp h np fuel root nilP with
        | .error e => .error e
        | .ok p => .ok (sanitize p, h)

/-! ## Traversal (`Tree::iter_recur` .. `Tree::reverse_iter`, lines 667-742)

The visitor is a state-threaded callback; a `some` result is the early
`or_else` stop.  Faithful to the source, `iter_start` and
`reverse_iter_start` compare the start key against whatever node the
descent reached — including the sentinel, whose payload was never
initialised — before checking anything else. -/

/-- `Tree::iter_recur` (lines 667-677). -/
def iterRecurS {CS A : Type} (h : Heap) (cb : CS → Ptr → CS × Option A) :
    Nat → CS → Ptr → Except Err (CS × Option A)
  | 0, _, _ => .error .fuelOut
  | f + 1, s, p =>
    if p = nilP then .ok (s, none)
    else
      match lookupE h p with
      | .error e => .error e
      | .ok r =>
        match iterRecurS h cb f s r.left with
        | .error e => .error e
        | .ok (s1, some a) => .ok (s1, some a)
        | .ok (s1, none) =>
          match cb s1 p with
          | (s2, some a) => .ok (s2, some a)
          | (s2, none) => iterRecurS h cb f s2 r.right

/-- `Tree::iter_start` (lines 679-694). -/
def iterStartS {CS A : Type} (cmp : Cmp) (h : Heap) (cb : CS → Ptr → CS × Option A)
    (k : Int) : Nat → CS → Ptr → Except Err (CS × Option A)
  | 0, _, _ => .error .fuelOut
  | f + 1, s, p =>
    match pcmpK cmp h k p with
    | .error e => .error e
    | .ok c =>
      match lookupE h p with
      | .error e => .error e
      | .ok r =>
        match c with
        | none | some .lt =>
          match iterStartS cmp h cb k f s r.left with
          | .error e => .error e
          | .ok (s1, some a) => .ok (s1, some a)
          | .ok (s1, none) =>
            match cb s1 p with
            | (s2, some a) => .ok (s2, some a)
            | (s2, none) => iterRecurS h cb f s2 r.right
        | some .gt => iterStartS cmp h cb k f s r.right
        | some .eq =>
          match cb s p with
          | (s2, some a) => .ok (s2, some a)
          | (s2, none) => iterRecurS h cb f s2 r.right

/-- `Tree::iter` (lines 696-703). -/
def iterS {CS A : Type} (cmp : Cmp) (fuel : Nat) (h : Heap)
    (cb : CS → Ptr → CS × Option A) (s : CS) (start : Option Int) (root : Ptr) :
    Except Err (CS × Option A) :=
  match start with
  | some k => iterStartS cmp h cb k fuel s root
  | none => iterRecurS h cb fuel s root

/-- `Tree::reverse_iter_recur` (lines 706-716). -/
def reverseIterRecurS {CS A : Type} (h : Heap) (cb : CS → Ptr → CS × Option A) :
    Nat → CS → Ptr → Except Err (CS × Option A)
  | 0, _, _ => .error .fuelOut
  | f + 1, s, p =>
    if p = nilP then .ok (s, none)
    else
      match lookupE h p with
      | .error e => .error e
      | .ok r =>
        match reverseIterRecurS h cb f s r.right with
        | .error e => .error e
        | .ok (s1, some a) => .ok (s1, some a)
        | .ok (s1, none) =>
          match cb s1 p with
          | (s2, some a) => .ok (s2, some a)
          | (s2, none) => reverseIterRecurS h cb f s2 r.left

/-- `Tree::reverse_iter_start` (lines 718-733).  Faithful to the source,
the `Less`/`Incomparable` arm explores the right subtree and visits the
node, and the `Greater` arm descends left — the arms are not mirrored
relative to `iter_start`. -/
def reverseIterStartS {CS A : Type} (cmp : Cmp) (h : Heap)
    (cb : CS → Ptr → CS × Option A) (k : Int) :
    Nat → CS → Ptr → Except Err (CS × Option A)
  | 0, _, _ => .error .fuelOut
  | f + 1, s, p =>
    match pcmpK cmp h k p with
    | .error e => .error e
    | .ok c =>
      match lookupE h p with
      | .error e => .error e
      | .ok r =>
        match c with
        | none | some .lt =>
          match reverseIterStartS cmp h cb k f s r.right with
          | .error e => .error e
          | .ok (s1, some a) => .ok (s1, some a)
          | .ok (s1, none) =>
            match cb s1 p with
            | (s2, some a) => .ok (s2, some a)
            | (s2, none) => reverseIterRecurS h cb f s2 r.left
        | some .gt => reverseIterStartS cmp h cb k f s r.left
        | some .eq =>
          match cb s p with
          | (s2, some a) => .ok (s2, some a)
          | (s2, none) => reverseIterRecurS h cb f s2 r.left

/-- `Tree::reverse_iter` (lines 735-742). -/
def reverseIterS {CS A : Type} (cmp : Cmp) (fuel : Nat) (h : Heap)
    (cb : CS → Ptr → CS × Option A) (s : CS) (start : Option Int) (root : Ptr) :
    Except Err (CS × Option A) :=
  match start with
  | some k => reverseIterStartS cmp h cb k fuel s root
  | none => reverseIterRecurS h cb fuel s root

/-- A visitor that records every visited pointer and never stops early. -/
def colCb : List Ptr → Ptr → List Ptr × Option Unit :=
  fun s p => (s ++ [p], none)

/-! ## The path stack (`PathElem<T>`, lines 745-748)

`insert` and `remove` allocate
`path: [PathElem<T>, ..::core::uint::BITS << 1]` — 128 entries on a
64-bit target — via `unsafe { uninitialized() }`.  A slot field that was
never written still holds `none`; reading it is the uninitialised read
`uninitSlot`. -/

/-- One `PathElem<T>`: the visited node and the recorded comparison.
Each field is wrapped in an outer `Option`; `none` = never initialised. -/
structure Slot where
  node : Option Ptr
  cmp : Option (Option Ordering)
deriving DecidableEq, Repr

/-- The 128-entry path array, indexed by position. -/
abbrev Path := Nat → Slot

/-- The freshly `uninitialized()` path. -/
def initPath : Path := fun _ => ⟨none, none⟩

/-- Write one slot of the path. -/
def setSlot (p : Path) (i : Nat) (s : Slot) : Path :=
  fun j => if j = i then s else p j

/-! ## `Tree::insert` (lines 279-361) -/

/-- The wind phase of `insert` (lines 284-303).  `i` is the index of the
iterator position `cur`; entering the loop the iterator has already
yielded slots `i` and `i+1`, and each iteration ends with
`next = iter.next().unwrap()`, a panic once the 128 entries are spent. -/
def windLoop (cmp : Cmp) (h : Heap) (n : Ptr) : Nat → Nat → Path → Except Err Path
  | 0, _, _ => .error .fuelOut
  | gas + 1, i, p =>
    match (p i).node with
    | none => .error .uninitSlot
    | some cn =>
      if cn = nilP then .ok (setSlot p i ⟨some n, (p i).cmp⟩)
      else
        match pcmpPP cmp h n cn with
        | .error e => .error e
        | .ok c =>
          match lookupE h cn with
          | .error e => .error e
          | .ok r =>
            match c with
            | some .eq => .error .unreachableHit
            | none | some .lt =>
              if i + 2 ≤ 127 then
                windLoop cmp h n gas (i + 1)
                  (setSlot (setSlot p i ⟨some cn, some c⟩) (i + 1)
                    ⟨some r.left, ((setSlot p i ⟨some cn, some c⟩) (i + 1)).cmp⟩)
              else .error .oob
            | some .gt =>
              if i + 2 ≤ 127 then
                windLoop cmp h n gas (i + 1)
                  (setSlot (setSlot p i ⟨some cn, some c⟩) (i + 1)
                    ⟨some r.right, ((setSlot p i ⟨some cn, some c⟩) (i + 1)).cmp⟩)
              else .error .oob

/-- Outcome of one unwind step of `insert`: an early `return` (the tree
root is left unchanged) or the value the step leaves in `cur.node`. -/
inductive InsOut where
  | ret (h : Heap)
  | cont (h : Heap) (cnode : Ptr)

/-- One body of the unwind loop of `insert` (lines 309-355), for the
recorded comparison `c` and the previously processed slot's node
`prevN` (`prev.node`, read inside the arms; `none` = slot never
initialised).  Faithful to the source, the less-arm executes
`cnode.field().left = cnode` (line 314) and the greater-arm executes
`node.field().set_right(right)` (line 332) on the inserted node `n`. -/
def insStep (h : Heap) (n : Ptr) (prevN : Option Ptr) (cnode : Ptr)
    (c : Option Ordering) : Except Err InsOut :=
  match c with
  | some .eq => .error .unreachableHit
  | none | some .lt =>
    match prevN with
    | none => .error .uninitSlot
    | some left =>
      match writeE h cnode (fun r => { r with left := cnode }) with
      | .error e => .error e
      | .ok h1 =>
          match colorE h1 left with
          | .error e => .error e
          | .ok lred =>
            if lred then
              match lookupE h1 left with
              | .error e => .error e
              | .ok lrec =>
                match colorE h1 lrec.left with
                | .error e => .error e
                | .ok llred =>
                  if llred then
                    match writeE h1 lrec.left (fun r => { r with red := false }) with
                    | .error e => .error e
                    | .ok h2 =>
                      match rotateRight h2 cnode with
                      | .error e => .error e
                      | .ok (h3, t) => .ok (.cont h3 t)
                  else .ok (.cont h1 cnode)
            else .ok (.ret h1)
  | some .gt =>
    match prevN with
    | none => .error .uninitSlot
    | some right =>
      match writeE h n (fun r => { r with right := right }) with
      | .error e => .error e
      | .ok h1 =>
        match colorE h1 right with
        | .error e => .error e
        | .ok rred =>
          if rred then
            match lookupE h1 right with
            | .error e => .error e
            | .ok rrec =>
              match colorE h1 rrec.left with
              | .error e => .error e
              | .ok lred2 =>
                if lred2 then
                  match writeE h1 rrec.left (fun r => { r with red := false }) with
                  | .error e => .error e
                  | .ok h2 =>
                    match writeE h2 right (fun r => { r with red := false }) with
                    | .error e => .error e
                    | .ok h3 =>
                      match writeE h3 cnode (fun r => { r with red := true }) with
                      | .error e => .error e
                      | .ok h4 => .ok (.cont h4 cnode)
                else
                  match colorE h1 cnode with
                  | .error e => .error e
                  | .ok tred =>
                    match rotateLeft h1 cnode with
                    | .error e => .error e
                    | .ok (h2, t) =>
                      match writeE h2 t (fun r => { r with red := tred }) with
                      | .error e => .error e
                      | .ok h3 =>
                        match writeE h3 cnode (fun r => { r with red := true }) with
                        | .error e => .error e
                        | .ok h4 => .ok (.cont h4 t)
          else .ok (.ret h1)

/-- The unwind phase of `insert` (lines 306-360).  The reversed fresh
iterator `path.iter_mut().rev()` starts at slot 127 (`prev`), so the
first processed `cur` is slot 126 — whether or not the wind phase ever
wrote it.  After the loop the root is taken from slot 0 and painted
black (lines 359-360). -/
def unwindLoop (n root : Ptr) : Nat → Heap → Path → Except Err (Heap × Ptr)
  | j, h, p =>
    match (p j).node with
    | none => .error .uninitSlot
    | some cnode =>
      match (p j).cmp with
      | none => .error .uninitSlot
      | some c =>
        match insStep h n ((p (j + 1)).node) cnode c with
        | .error e => .error e
        | .ok (.ret h1) => .ok (h1, root)
        | .ok (.cont h1 cn1) =>
          match j with
          | 0 =>
            match ((setSlot p 0 ⟨some cn1, (p 0).cmp⟩) 0).node with
            | none => .error .uninitSlot
            | some newRoot =>
              match writeE h1 newRoot (fun r => { r with red := false }) with
              | .error e => .error e
              | .ok h2 => .ok (h2, newRoot)
          | j1 + 1 => unwindLoop n root j1 h1 (setSlot p (j1 + 1) ⟨some cn1, (p (j1 + 1)).cmp⟩)

/-- `Tree::insert` (lines 279-361): initialise the inserted node's
linkage (line 281), wind down recording the path, then unwind.  Returns
the heap and root reference after the call. -/
def insertM (cmp : Cmp) (h : Heap) (root n : Ptr) : Except Err (Heap × Ptr) :=
  match writeE h n (fun r => { r with left := nilP, right := nilP, red := true }) with
  | .error e => .error e
  | .ok h0 =>
    match windLoop cmp h0 n 128 0 (setSlot initPath 0 ⟨some root, (initPath 0).cmp⟩) with
    | .error e => .error e
    | .ok p1 => unwindLoop n root 126 h0 p1

/-! ## `Tree::remove` (lines 363-664) -/

/-- The locate loop of `remove` (lines 374-386).  Faithful to the
source, the loop body never advances `cur`/`next`: every iteration
compares against `path[0].node` and overwrites `path[1].node`, so it
only terminates when the comparison at the root is `Equal`. -/
def remLoop1 (cmp : Cmp) (h : Heap) (n : Ptr) : Nat → Path → Except Err Path
  | 0, _ => .error .fuelOut
  | f + 1, p =>
    match (p 0).node with
    | none => .error .uninitSlot
    | some cn =>
      if cn = nilP then .error .assertFail
      else
        match pcmpPP cmp h n cn with
        | .error e => .error e
        | .ok c =>
          match lookupE h cn with
          | .error e => .error e
          | .ok r =>
            match c with
            | none | some .lt =>
              remLoop1 cmp h n f
                (setSlot (setSlot p 0 ⟨some cn, some c⟩) 1
                  ⟨some r.left, ((setSlot p 0 ⟨some cn, some c⟩) 1).cmp⟩)
            | some .gt =>
              remLoop1 cmp h n f
                (setSlot (setSlot p 0 ⟨some cn, some c⟩) 1
                  ⟨some r.right, ((setSlot p 0 ⟨some cn, some c⟩) 1).cmp⟩)
            | some .eq =>
              .ok (setSlot (setSlot p 0 ⟨some cn, some c⟩) 1
                ⟨some r.right, ((setSlot p 0 ⟨some cn, some c⟩) 1).cmp⟩)

/-- The successor-descent loop of `remove` (lines 390-398): walk left
from the removed node's right child, recording `Some(Less)` at each
step.  `i` is the index of `cur`; each iteration first consumes slot
`i+1` from the iterator (`unwrap()` panics past the array). -/
def remLoop2 (h : Heap) : Nat → Nat → Path → Except Err (Nat × Path)
  | 0, _, _ => .error .fuelOut
  | g + 1, i, p =>
    if 127 < i + 1 then .error .oob
    else
      match (p i).node with
      | none => .error .uninitSlot
      | some cn =>
        if cn = nilP then .ok (i, p)
        else
          match lookupE h cn with
          | .error e => .error e
          | .ok r =>
            remLoop2 h g (i + 1)
              (setSlot (setSlot p i ⟨some cn, some (some .lt)⟩) (i + 1)
                ⟨some r.left, ((setSlot p i ⟨some cn, some (some .lt)⟩) (i + 1)).cmp⟩)

/-- `match next.cmp { None | Some(Less) => next.node.left = t, _ =>
next.node.set_right(t) }` — the parent relink used throughout the
splice and unwind of `remove`. -/
def linkNext (h : Heap) (p : Path) (nIdx : Nat) (t : Ptr) : Except Err Heap :=
  match (p nIdx).cmp with
  | none => .error .uninitSlot
  | some nc =>
    match (p nIdx).node with
    | none => .error .uninitSlot
    | some nn =>
      match nc with
      | none | some .lt => writeE h nn (fun r => { r with left := t })
      | _ => writeE h nn (fun r => { r with right := t })

/-- `if cur == first_elem { self.root = t } else { relink via next }; return`
(the recurring tail of the rebalancing cases of `remove`). -/
def setRootOrLink (h : Heap) (p : Path) (j : Nat) (root t : Ptr) :
    Except Err (Heap × Ptr) :=
  if j = 0 then .ok (h, t)
  else
    match linkNext h p (j - 1) t with
    | .error e => .error e
    | .ok h1 => .ok (h1, root)

/-- The tail of the rebalancing cases that carry
`assert!(cur as *mut PathElem<T> > first_elem)` before relinking. -/
def linkAssert (h : Heap) (p : Path) (j : Nat) (root t : Ptr) :
    Except Err (Heap × Ptr) :=
  if j = 0 then .error .assertFail
  else
    match linkNext h p (j - 1) t with
    | .error e => .error e
    | .ok h1 => .ok (h1, root)

/-- `self.root = path[0].node; assert_eq!(!self.root.field().color(), true)`
(lines 662-663), reached when the unwind loop exhausts its iterator. -/
def remFinish (h : Heap) (p : Path) : Except Err (Heap × Ptr) :=
  match (p 0).node with
  | none => .error .uninitSlot
  | some r0 =>
    match colorE h r0 with
    | .error e => .error e
    | .ok c0 => if c0 then .error .assertFail else .ok (h, r0)

/-- The black-node unwind loop of `remove` (lines 461-658).  `cur` is at
index `j`, `prev` at `j+1`; an iteration runs only while the reversed
iterator can still yield `next = j-1 ≥ iStop+2` (`iStop` being where the
locate phase stopped), otherwise control falls through to `remFinish`. -/
def remUnwind (n : Ptr) (iStop : Nat) : Nat → Heap → Ptr → Path → Except Err (Heap × Ptr)
  | 0, h, _, p => remFinish h p
  | j1 + 1, h, root, p =>
    if j1 + 1 < iStop + 3 then remFinish h p
    else
      match (p (j1 + 1)).cmp with
      | none => .error .uninitSlot
      | some c =>
        match c with
        | some .eq => .error .unreachableHit
        | none | some .lt =>
          match (p (j1 + 1)).node with
          | none => .error .uninitSlot
          | some cn =>
            match (p (j1 + 2)).node with
            | none => .error .uninitSlot
            | some prevN =>
              match writeE h cn (fun r => { r with left := prevN }) with
              | .error e => .error e
              | .ok h1 =>
                match (p j1).node with
                | none => .error .uninitSlot
                | some nextN =>
                  match colorE h1 nextN with
                  | .error e => .error e
                  | .ok cnex =>
                    if !cnex then .error .assertFail
                    else
                      match colorE h1 cn with
                      | .error e => .error e
                      | .ok cred =>
                        match lookupE h1 cn with
                        | .error e => .error e
                        | .ok r =>
                          match lookupE h1 r.right with
                          | .error e => .error e
                          | .ok rrec =>
                            match colorE h1 rrec.left with
                            | .error e => .error e
                            | .ok rlred =>
                              if cred then
                                match
                                  (if rlred then
                                    match writeE h1 cn (fun q => { q with red := false }) with
                                    | .error e => .error e
                                    | .ok h2 =>
                                      match rotateRight h2 r.right with
                                      | .error e => .error e
                                      | .ok (h3, rr) =>
                                        match writeE h3 cn (fun q => { q with right := rr }) with
                                        | .error e => .error e
                                        | .ok h4 => rotateLeft h4 cn
                                  else rotateLeft h1 cn) with
                                | .error e => .error e
                                | .ok (h5, t) => linkAssert h5 p (j1 + 1) root t
                              else
                                if rlred then
                                  match writeE h1 rrec.left (fun q => { q with red := false }) with
                                  | .error e => .error e
                                  | .ok h2 =>
                                    match rotateRight h2 r.right with
                                    | .error e => .error e
                                    | .ok (h3, rr) =>
                                      match writeE h3 cn (fun q => { q with right := rr }) with
                                      | .error e => .error e
                                      | .ok h4 =>
                                        match rotateLeft h4 cn with
                                        | .error e => .error e
                                        | .ok (h5, t) => setRootOrLink h5 p (j1 + 1) root t
                                else
                                  match writeE h1 cn (fun q => { q with red := true }) with
                                  | .error e => .error e
                                  | .ok h2 =>
                                    match rotateLeft h2 cn with
                                    | .error e => .error e
                                    | .ok (h3, t) =>
                                      remUnwind n iStop j1 h3 root
                                        (setSlot p (j1 + 1) ⟨some t, (p (j1 + 1)).cmp⟩)
        | some .gt =>
          match (p (j1 + 1)).node with
          | none => .error .uninitSlot
          | some cn =>
            match (p (j1 + 2)).node with
            | none => .error .uninitSlot
            | some prevN =>
              match writeE h cn (fun r => { r with right := prevN }) with
              | .error e => .error e
              | .ok h1 =>
                match lookupE h1 cn with
                | .error e => .error e
                | .ok r =>
                  match colorE h1 r.left with
                  | .error e => .error e
                  | .ok lred =>
                    if lred then
                      match lookupE h1 r.left with
                      | .error e => .error e
                      | .ok lrec =>
                        match lookupE h1 lrec.right with
                        | .error e => .error e
                        | .ok lrrec =>
                          match colorE h1 lrrec.left with
                          | .error e => .error e
                          | .ok lrlred =>
                            if lrlred then
                              match writeE h1 lrrec.left (fun q => { q with red := false }) with
                              | .error e => .error e
                              | .ok h2 =>
                                match rotateRight h2 cn with
                                | .error e => .error e
                                | .ok (h3, u) =>
                                  match rotateRight h3 cn with
                                  | .error e => .error e
                                  | .ok (h4, v) =>
                                    match writeE h4 u (fun q => { q with right := v }) with
                                    | .error e => .error e
                                    | .ok h5 =>
                                      match rotateLeft h5 u with
                                      | .error e => .error e
                                      | .ok (h6, t) => setRootOrLink h6 p (j1 + 1) root t
                            else
                              if lrec.right = nilP then .error .assertFail
                              else
                                match writeE h1 lrec.right (fun q => { q with red := true }) with
                                | .error e => .error e
                                | .ok h2 =>
                                  match rotateRight h2 cn with
                                  | .error e => .error e
                                  | .ok (h3, t) =>
                                    match writeE h3 t (fun q => { q with red := false }) with
                                    | .error e => .error e
                                    | .ok h4 => setRootOrLink h4 p (j1 + 1) root t
                    else
                      match colorE h1 cn with
                      | .error e => .error e
                      | .ok cred =>
                        match lookupE h1 r.left with
                        | .error e => .error e
                        | .ok lrec =>
                          match colorE h1 lrec.left with
                          | .error e => .error e
                          | .ok llred =>
                            if cred then
                              if llred then
                                match writeE h1 cn (fun q => { q with red := false }) with
                                | .error e => .error e
                                | .ok h2 =>
                                  match writeE h2 r.left (fun q => { q with red := true }) with
                                  | .error e => .error e
                                  | .ok h3 =>
                                    match writeE h3 lrec.left (fun q => { q with red := false }) with
                                    | .error e => .error e
                                    | .ok h4 =>
                                      match rotateRight h4 cn with
                                      | .error e => .error e
                                      | .ok (h5, t) => linkAssert h5 p (j1 + 1) root t
                              else
                                match writeE h1 r.left (fun q => { q with red := true }) with
                                | .error e => .error e
                                | .ok h2 =>
                                  match writeE h2 cn (fun q => { q with red := false }) with
                                  | .error e => .error e
                                  | .ok h3 => .ok (h3, root)
                            else
                              if llred then
                                match writeE h1 lrec.left (fun q => { q with red := false }) with
                                | .error e => .error e
                                | .ok h2 =>
                                  match rotateRight h2 cn with
                                  | .error e => .error e
                                  | .ok (h3, t) => setRootOrLink h3 p (j1 + 1) root t
                              else
                                match writeE h1 r.left (fun q => { q with red := true }) with
                                | .error e => .error e
                                | .ok h2 => remUnwind n iStop j1 h2 root p

/-- Lines 453-458: if the node at the splice point is red, prune it with
no fixup (`next.node.left = nil`) and return; otherwise enter the black
unwind with `prev = 126`, `cur = 125`. -/
def afterSplice (h : Heap) (root n : Ptr) (iStop : Nat) (p : Path) :
    Except Err (Heap × Ptr) :=
  match (p 126).node with
  | none => .error .uninitSlot
  | some cn =>
    match colorE h cn with
    | .error e => .error e
    | .ok cred =>
      if cred then
        match (p 125).cmp with
        | none => .error .uninitSlot
        | some nc =>
          if nc = some .lt ∨ nc = none then
            match (p 125).node with
            | none => .error .uninitSlot
            | some nn =>
              match writeE h nn (fun r => { r with left := nilP }) with
              | .error e => .error e
              | .ok h1 => .ok (h1, root)
          else .error .assertFail
      else remUnwind n iStop 125 h root p

/-- Lines 424-431: after the successor swap, redirect the parent link.
`nodep` is `path[0]`, and with the broken locate loop `nodep` always
equals `first_elem`, so the root is set to `nodep.node`. -/
def spliceSwapTail (h : Heap) (root n : Ptr) (iStop : Nat) (p : Path) :
    Except Err (Heap × Ptr) :=
  if (0 : Nat) = 0 then
    match (p 0).node with
    | none => .error .uninitSlot
    | some ndp => afterSplice h ndp n iStop p
  else
    match (p 0).node with
    | none => .error .uninitSlot
    | some ndp =>
      match linkNext h p 125 ndp with
      | .error e => .error e
      | .ok h5 => afterSplice h5 root n iStop p

/-- The splice phase of `remove` (lines 402-451), entered with
`cur = path[126]` and `next = path[125]`: the reversed iterator
`iter_1.rev()` yields the unconsumed tail of the array from slot 127
downward, not the recorded path.  Faithful to the source, the
left-child splice is guarded by the tautological self-comparison
`cur as *mut PathElem<T> == cur as *mut PathElem<T>` (line 439) and
sets the root to `nodep.node` — the node being removed. -/
def splice (h : Heap) (root n : Ptr) (iStop : Nat) (p : Path) :
    Except Err (Heap × Ptr) :=
  match (p 126).node with
  | none => .error .uninitSlot
  | some c126 =>
    if c126 ≠ n then
      match colorE h c126 with
      | .error e => .error e
      | .ok tred =>
        match colorE h n with
        | .error e => .error e
        | .ok ncol =>
          match writeE h c126 (fun r => { r with red := ncol }) with
          | .error e => .error e
          | .ok h1 =>
            match lookupE h1 n with
            | .error e => .error e
            | .ok nrec =>
              match writeE h1 c126 (fun r => { r with left := nrec.left }) with
              | .error e => .error e
              | .ok h2 =>
                match lookupE h2 n with
                | .error e => .error e
                | .ok nrec2 =>
                  match writeE h2 c126 (fun r => { r with right := nrec2.right }) with
                  | .error e => .error e
                  | .ok h3 =>
                    match writeE h3 n (fun r => { r with red := tred }) with
                    | .error e => .error e
                    | .ok h4 =>
                      spliceSwapTail h4 root n iStop
                        (setSlot (setSlot p 0 ⟨some c126, (p 0).cmp⟩) 126
                          ⟨some n, ((setSlot p 0 ⟨some c126, (p 0).cmp⟩) 126).cmp⟩)
    else
      match lookupE h n with
      | .error e => .error e
      | .ok nrec =>
        if nrec.left ≠ nilP then
          match colorE h n with
          | .error e => .error e
          | .ok nc0 =>
            if nc0 then .error .assertFail
            else
              match colorE h nrec.left with
              | .error e => .error e
              | .ok lc0 =>
                if !lc0 then .error .assertFail
                else
                  if (126 : Nat) = 126 then
                    match (p 0).node with
                    | none => .error .uninitSlot
                    | some ndp => afterSplice h ndp n iStop p
                  else
                    match linkNext h p 125 nrec.left with
                    | .error e => .error e
                    | .ok h1 => afterSplice h1 root n iStop p
        else
          if (126 : Nat) = 0 then .ok (h, nilP)
          else afterSplice h root n iStop p

/-- Lines 388-407 between the locate loops and the splice: run the
successor descent, check `assert_eq!(nodep.node, node)`, then let the
reversed iterator skip slot 127 and position `cur = 126`, `next = 125`
(a panic if fewer than three unconsumed entries remain). -/
def removeRest (h : Heap) (root n : Ptr) (p : Path) : Except Err (Heap × Ptr) :=
  match remLoop2 h 128 1 p with
  | .error e => .error e
  | .ok (i, p2) =>
    match (p2 0).node with
    | none => .error .uninitSlot
    | some ndp =>
      if ndp ≠ n then .error .assertFail
      else if 125 < i + 2 then .error .oob
      else splice h root n i p2

/-- `Tree::remove` (lines 363-664). -/
def removeM (cmp : Cmp) (fuel : Nat) (h : Heap) (root n : Ptr) :
    Except Err (Heap × Ptr) :=
  match remLoop1 cmp h n fuel (setSlot initPath 0 ⟨some root, (initPath 0).cmp⟩) with
  | .error e => .error e
  | .ok p1 => removeRest h root n (setSlot p1 0 ⟨(p1 0).node, some (some .gt)⟩)

/-! ## Concrete stores

`Tree::place` leaves the whole tree uninitialised and `Tree::init`
(lines 117-124) then sets `root = nil` and the sentinel's `Node` field
only — the sentinel's payload key stays uninitialised (`none`). -/

/-- The sentinel after `Tree::init`: children point at itself, black,
payload never written. -/
def sentinelRec : Rec := ⟨nilP, nilP, false, none⟩

/-- An initialised empty tree: just the sentinel; `root = nilP`. -/
def heapE : Heap := [(nilP, sentinelRec)]

/-- An empty tree plus one caller-owned element (address 2, key 1) about
to be inserted; its linkage is uninitialised garbage, its payload set. -/
def heapIns : Heap := [(nilP, sentinelRec), (2, ⟨0, 0, false, some 1⟩)]

/-- A valid one-element tree: root (address 2) holds key 5, black. -/
def heap5 : Heap := [(nilP, sentinelRec), (2, ⟨nilP, nilP, false, some 5⟩)]

/-- A valid two-element tree: black root key 5 (address 2) with red left
child key 3 (address 3) — the root has a left child and no successor. -/
def heap53 : Heap :=
  [(nilP, sentinelRec), (2, ⟨3, nilP, false, some 5⟩), (3, ⟨nilP, nilP, true, some 3⟩)]

/-- A valid three-element tree: black root key 5 (address 10), red left
child key 2 (address 20), red right child key 9 (address 30). -/
def heap259 : Heap :=
  [(nilP, sentinelRec), (10, ⟨20, 30, false, some 5⟩),
   (20, ⟨nilP, nilP, true, some 2⟩), (30, ⟨nilP, nilP, true, some 9⟩)]

/-! ## Claims C1, C2, C4: `insert` and `remove` never complete

The unwind phases of `insert` (line 307) and `remove` (line 402) build
their reversed iterator from `path.iter_mut().rev()` /
`iter_1.rev()`, which yields the *unconsumed tail* of the 128-entry
array — slots 127, 126, … — not the recorded path.  The first processed
slot, 126, was never written for any realistically sized tree, so both
operations read uninitialised `PathElem`s before doing anything else. -/

/-- C1: inserting key 1 into the initialised empty tree does not produce
a tree at all — the unwind phase reads the uninitialised path slot 126
(`let mut cnode = cur.node`, line 310), so no state with a strictly
increasing in-order traversal ever results.  The claim that BST ordering
holds after each insert fails at the very first insert. -/
theorem c1_insert_reads_uninit_path :
    insertM icmp heapIns nilP 2 = .error .uninitSlot := rfl

/-- C2: removing the sole element of a valid one-element red-black tree
never completes — after locating the node, `remove`'s splice reads the
uninitialised path slot 126 (`if cur.node != node`, line 409) — so no
post-remove state satisfying the red-red and black-height invariants is
ever produced. -/
theorem c2_remove_reads_uninit_path :
    removeM icmp 8 heap5 2 2 = .error .uninitSlot := rfl

/-- C4: removing the root (key 5) of a valid tree where the root has a
left child (key 3) and no in-tree successor does not splice the left
child into its place: the splice code is never reached because the
unwind iterator first reads the uninitialised slot 126 (line 409).
(Had it been reached, the branch is guarded by the tautological
self-comparison on line 439 and assigns `self.root = nodep.node` — the
removed node itself — rather than the left child.) -/
theorem c4_remove_left_child_splice_unreached :
    removeM icmp 8 heap53 2 2 = .error .uninitSlot := rfl

/-! ## Claim C3: `nsearch` / `psearch`

Lines 243 and 263 compare the probe against the remembered candidate
`ret` — initialised to the sentinel, whose payload was never written —
instead of the descent cursor `tnode`.  On any non-empty tree the very
first comparison is a read of the sentinel's uninitialised payload. -/

/-- C3: on the one-element tree holding key 5, `nsearch(3)` must return
the ceiling (the element with key 5) and `psearch(3)` the floor; instead
both first compare the probe with the sentinel's uninitialised payload
(`(*key).partial_cmp(&*ret)` with `ret = nil`, lines 243/263) and never
produce a result. -/
theorem c3_nsearch_psearch_compare_sentinel :
    nsearchS icmp 9 heap5 3 2 = .error .uninitKey ∧
      psearchS icmp 9 heap5 3 2 = .error .uninitKey := ⟨rfl, rfl⟩

/-! ## Claim C5: `reverse_iter` with a start key

`reverse_iter_start` (lines 718-733) keeps `iter_start`'s match arms
while swapping only the recursion targets: on `Greater` (start key above
the node) it descends *left*, walking away from the start position, and
it never checks for the sentinel before comparing. -/

/-- C5: on the tree {2, 5, 9}, `reverse_iter` started at the existing
key 9 must visit 9, 5, 2 in descending order; instead the descent goes
left at the root (`Some(Greater) => ... node.field().left`, line 727),
reaches the sentinel below key 2 and compares the start key against the
sentinel's uninitialised payload — the visitor is never invoked. -/
theorem c5_reverse_iter_start_descends_wrong :
    reverseIterS icmp 20 heap259 colCb [] (some 9) 10 = .error .uninitKey := rfl

/-! ## Claim C7: traversal termination with a start key

`iter_start` (lines 679-694) compares the start key against every node
the descent reaches with no sentinel check, so a start key that is
absent from the tree — including any start key on the empty tree —
reaches the sentinel and reads its uninitialised payload. -/

/-- C7: on the initialised empty tree (a valid red-black tree of size
0), `iter` with start key 1 must terminate after at most 0 visits;
instead `iter_start` immediately compares the start key with the
sentinel's uninitialised payload (line 682) — behaviour is undefined,
and with arbitrary comparison garbage the recursion can re-enter the
self-referential sentinel forever. -/
theorem c7_iter_start_empty_tree_undefined :
    iterS icmp 20 heapE colCb [] (some 1) nilP = .error .uninitKey := rfl

/-! ## Claim C6: `search` is correct on well-formed trees

Specification-side layer: an inductive view of the pointer structure
reachable from the root, the binary-search-tree ordering invariant the
spec maintains for every reachable state, and key membership.  `search`
(lines 225-236) is proved to return exactly the member with the probed
key, and null otherwise. -/

/-- The abstract shape of a tree: key and colour per node. -/
inductive ITree where
  | leaf
  | node (l : ITree) (k : Int) (red : Bool) (r : ITree)

def sizeT : ITree → Nat
  | .leaf => 0
  | .node l _ _ r => sizeT l + sizeT r + 1

/-- Key membership in the abstract tree. -/
def memT (k : Int) : ITree → Bool
  | .leaf => false
  | .node l k1 _ r => (k == k1) || memT k l || memT k r

def allT (f : Int → Bool) : ITree → Bool
  | .leaf => true
  | .node l k1 _ r => f k1 && allT f l && allT f r

/-- The BST ordering invariant of spec §3. -/
def bstB : ITree → Bool
  | .leaf => true
  | .node l k1 _ r =>
    allT (fun x => decide (x < k1)) l && allT (fun x => decide (k1 < x)) r &&
      bstB l && bstB r

/-- `representsB h p t`: the heap fragment reachable from `p` lays out
exactly the abstract tree `t`: the sentinel stands for `leaf`, and every
node is an allocated non-null, non-sentinel element whose payload key,
colour and children match. -/
def representsB (h : Heap) : Ptr → ITree → Bool
  | p, .leaf => p == nilP
  | p, .node l k1 c r =>
    (p != nilP) && (p != 0) &&
      (match lookupH h p with
       | some q => (q.key == some k1) && (q.red == c) &&
           representsB h q.left l && representsB h q.right r
       | none => false)

theorem allT_mem (f : Int → Bool) (k : Int) :
    ∀ t : ITree, allT f t = true → memT k t = true → f k = true := by
  intro t
  induction t with
  | leaf => intro _ hm; simp [memT] at hm
  | node l k1 c r ihl ihr =>
    intro ha hm
    rw [allT] at ha
    simp only [Bool.and_eq_true] at ha
    obtain ⟨⟨hk1, hal⟩, har⟩ := ha
    rw [memT] at hm
    simp only [Bool.or_eq_true, beq_iff_eq] at hm
    rcases hm with (rfl | hm) | hm
    · exact hk1
    · exact ihl hal hm
    · exact ihr har hm

theorem searchLoop_rep (k : Int) :
    ∀ (t : ITree) (h : Heap) (root : Ptr) (fuel : Nat),
    representsB h root t = true → bstB t = true → sizeT t < fuel →
    (memT k t = true → ∃ p q, searchLoop icmp h k fuel root = .ok p ∧ p ≠ nilP ∧
       p ≠ 0 ∧ lookupH h p = some q ∧ q.key = some k) ∧
    (memT k t = false → searchLoop icmp h k fuel root = .ok nilP) := by
  intro t
  induction t with
  | leaf =>
    intro h root fuel hrep hbst hfuel
    rw [representsB] at hrep
    simp only [beq_iff_eq] at hrep
    subst hrep
    obtain ⟨f, rfl⟩ : ∃ f, fuel = f + 1 := ⟨fuel - 1, by omega⟩
    constructor
    · intro hmem; simp [memT] at hmem
    · intro _; simp [searchLoop]
  | node l k1 c r ihl ihr =>
    intro h root fuel hrep hbst hfuel
    cases hl : lookupH h root with
    | none => rw [representsB, hl] at hrep; simp at hrep
    | some rec0 =>
      rw [representsB, hl] at hrep
      simp only [Bool.and_eq_true, bne_iff_ne, ne_eq, beq_iff_eq] at hrep
      obtain ⟨⟨hnn, hn0⟩, ⟨⟨hkey, hred⟩, hrl⟩, hrr⟩ := hrep
      rw [bstB] at hbst
      simp only [Bool.and_eq_true] at hbst
      obtain ⟨⟨⟨hall_l, hall_r⟩, hbl⟩, hbr⟩ := hbst
      rw [sizeT] at hfuel
      obtain ⟨f, rfl⟩ : ∃ f, fuel = f + 1 := ⟨fuel - 1, by omega⟩
      have hfl : sizeT l < f := by omega
      have hfr : sizeT r < f := by omega
      rw [searchLoop, if_neg hnn]
      have hke : keyE h root = .ok k1 := by
        simp [keyE, lookupE, hl, hkey]
      have hle : lookupE h root = .ok rec0 := by simp [lookupE, hl]
      simp only [pcmpK, hke, hle]
      rcases lt_trichotomy k k1 with hlt | heq | hgt
      · have hc : icmp k k1 = some .lt := by simp [icmp, hlt]
        simp only [hc]
        have hne : (k == k1) = false := by
          simp [beq_eq_false_iff_ne, ne_of_lt hlt]
        have hmr : memT k r = false := by
          cases hmr0 : memT k r
          · rfl
          · exfalso
            have := allT_mem _ k r hall_r hmr0
            simp at this
            exact absurd hlt (not_lt_of_gt this)
        have IH := ihl h rec0.left f hrl hbl hfl
        constructor
        · intro hmem
          rw [memT] at hmem
          simp only [hne, hmr, Bool.or_false, Bool.false_or] at hmem
          exact IH.1 hmem
        · intro hmem
          rw [memT] at hmem
          simp only [hne, hmr, Bool.or_false, Bool.false_or] at hmem
          exact IH.2 hmem
      · subst heq
        have hc : icmp k k = some .eq := by simp [icmp]
        simp only [hc]
        constructor
        · intro _
          exact ⟨root, rec0, rfl, hnn, hn0, hl, by rw [hkey]⟩
        · intro hmem
          rw [memT] at hmem
          simp at hmem
      · have hc : icmp k k1 = some .gt := by
          simp [icmp, not_lt_of_gt hgt]
          omega
        simp only [hc]
        have hne : (k == k1) = false := by
          simp [beq_eq_false_iff_ne, ne_of_gt hgt]
        have hml : memT k l = false := by
          cases hml0 : memT k l
          · rfl
          · exfalso
            have := allT_mem _ k l hall_l hml0
            simp at this
            exact absurd hgt (not_lt_of_gt this)
        have IH := ihr h rec0.right f hrr hbr hfr
        constructor
        · intro hmem
          rw [memT] at hmem
          simp only [hne, hml, Bool.or_false, Bool.false_or] at hmem
          exact IH.1 hmem
        · intro hmem
          rw [memT] at hmem
          simp only [hne, hml, Bool.or_false, Bool.false_or] at hmem
          exact IH.2 hmem

/-- C6: on any heap laying out a tree that satisfies the BST invariant —
the invariant every state reachable by valid insert/remove sequences
maintains — `search(k)` returns the (necessarily unique) element whose
key compares `Equal` to `k` when `k` is a member, and the null "no
element" pointer when it is not. -/
theorem c6_search_finds_iff_member (h : Heap) (t : ITree) (root : Ptr) (k : Int)
    (fuel : Nat) (hrep : representsB h root t = true) (hbst : bstB t = true)
    (hfuel : sizeT t < fuel) :
    (memT k t = true → ∃ p q, searchS icmp fuel h k root = .ok (p, h) ∧ p ≠ 0 ∧
       p ≠ nilP ∧ lookupH h p = some q ∧ q.key = some k) ∧
    (memT k t = false → searchS icmp fuel h k root = .ok (0, h)) := by
  have H := searchLoop_rep k t h root fuel hrep hbst hfuel
  constructor
  · intro hmem
    obtain ⟨p, q, hloop, hpn, hp0, hlk, hqk⟩ := H.1 hmem
    refine ⟨p, q, ?_, hp0, hpn, hlk, hqk⟩
    rw [searchS, hloop]
    simp [sanitize, hpn]
  · intro hmem
    rw [searchS, H.2 hmem]
    simp [sanitize]

/-- The abstract tree laid out by `heap259`. -/
def tree259 : ITree :=
  .node (.node .leaf 2 true .leaf) 5 false (.node .leaf 9 true .leaf)

/-- Witness for C6 at a concrete input: `heap259` represents `tree259`,
a valid BST, and `search(5)` returns the root element that holds key 5. -/
theorem c6_search_finds_iff_member_witness :
    representsB heap259 10 tree259 = true ∧
      (∃ p q, searchS icmp 9 heap259 5 10 = .ok (p, heap259) ∧ p ≠ 0 ∧
        p ≠ nilP ∧ lookupH heap259 p = some q ∧ q.key = some 5) :=
  ⟨by decide,
    (c6_search_finds_iff_member heap259 tree259 10 5 9 (by decide) (by decide)
      (by decide)).1 (by decide)⟩

/-! ## Claim C9: queries modify no tree state

`first_`, `last_`, `search`, `nsearch`, `psearch`, `next`, `prev`
(lines 132-276) only read element linkage; the heap an ok result hands
back is the heap that went in. -/

/-- C9: every query operation — `first`, `last`, `search`, `nsearch`,
`psearch`, `next`, `prev` — returns the tree state unchanged: the heap
component of any ok result is the input heap, so the root reference, the
sentinel, and every element's children and colour are untouched. -/
theorem c9_queries_preserve_heap :
    (∀ h fuel root p h2, firstS h fuel root = .ok (p, h2) → h2 = h) ∧
    (∀ h fuel root p h2, lastS h fuel root = .ok (p, h2) → h2 = h) ∧
    (∀ cmp fuel h k root p h2, searchS cmp fuel h k root = .ok (p, h2) → h2 = h) ∧
    (∀ cmp fuel h k root p h2, nsearchS cmp fuel h k root = .ok (p, h2) → h2 = h) ∧
    (∀ cmp fuel h k root p h2, psearchS cmp fuel h k root = .ok (p, h2) → h2 = h) ∧
    (∀ cmp fuel h root np p h2, nextS cmp fuel h root np = .ok (p, h2) → h2 = h) ∧
    (∀ cmp fuel h root np p h2, prevS cmp fuel h root np = .ok (p, h2) → h2 = h) := by
  refine ⟨?_, ?_, ?_, ?_, ?_, ?_, ?_⟩
  · intro h fuel root p h2 hr
    rw [firstS] at hr
    split at hr
    · cases hr
    · cases hr; rfl
  · intro h fuel root p h2 hr
    rw [lastS] at hr
    split at hr
    · cases hr
    · cases hr; rfl
  · intro cmp fuel h k root p h2 hr
    rw [searchS] at hr
    split at hr
    · cases hr
    · cases hr; rfl
  · intro cmp fuel h k root p h2 hr
    rw [nsearchS] at hr
    split at hr
    · cases hr
    · cases hr; rfl
  · intro cmp fuel h k root p h2 hr
    rw [psearchS] at hr
    split at hr
    · cases hr
    · cases hr; rfl
  · intro cmp fuel h root np p h2 hr
    rw [nextS] at hr
    split at hr
    · cases hr
    · split at hr
      · cases hr
      · split at hr
        · split at hr
          · cases hr
          · cases hr; rfl
        · split at hr
          · cases hr
          · split at hr
            · cases hr
            · cases hr; rfl
  · intro cmp fuel h root np p h2 hr
    rw [prevS] at hr
    split at hr
    · cases hr
    · split at hr
      · split at hr
        · cases hr
        · cases hr; rfl
      · split at hr
        · cases hr
        · split at hr
          · cases hr
          · cases hr; rfl

/-- Witness for C9 at a concrete input: `search(5)` on `heap259` returns
pointer 10 with exactly the heap it was handed. -/
theorem c9_queries_preserve_heap_witness :
    searchS icmp 9 heap259 5 10 = .ok (10, heap259) ∧ heap259 = heap259 :=
  ⟨rfl, c9_queries_preserve_heap.2.2.1 icmp 9 heap259 5 10 10 heap259 rfl⟩

/-! ## Claim C10: no query exposes the sentinel

Every public query pipes its result through `sanitize` (lines 156-162),
which maps the sentinel to null; the non-null results the loops can
produce are allocated elements reached from the root descent. -/

/-- `p` is the sentinel or an allocated element. -/
def ptrOkB (h : Heap) (p : Ptr) : Bool := (p == nilP) || (lookupH h p).isSome

/-- Every allocated element's children are the sentinel or allocated —
true of any well-formed tree store. -/
def heapClosedB (h : Heap) : Bool :=
  h.all (fun e => ptrOkB h e.2.left && ptrOkB h e.2.right)

theorem lookupH_mem : ∀ (h : Heap) (q : Ptr) (r : Rec),
    lookupH h q = some r → (q, r) ∈ h := by
  intro h
  induction h with
  | nil => intro q r hq; cases hq
  | cons e t ih =>
    obtain ⟨a, b⟩ := e
    intro q r hq
    rw [lookupH] at hq
    split at hq
    · cases hq
      rename_i ha
      subst ha
      exact List.mem_cons_self _ _
    · exact List.mem_cons_of_mem _ (ih q r hq)

theorem lookupE_ok (h : Heap) (p : Ptr) (r : Rec) (he : lookupE h p = .ok r) :
    lookupH h p = some r := by
  rw [lookupE] at he
  cases hl : lookupH h p with
  | none => rw [hl] at he; cases he
  | some r0 => rw [hl] at he; cases he; rfl

theorem heapClosed_children (h : Heap) (hc : heapClosedB h = true) (q : Ptr)
    (r : Rec) (hq : lookupH h q = some r) :
    ptrOkB h r.left = true ∧ ptrOkB h r.right = true := by
  have hm := lookupH_mem h q r hq
  rw [heapClosedB, List.all_eq_true] at hc
  have := hc (q, r) hm
  simpa using this

theorem lookupE_ptrOk (h : Heap) (p : Ptr) (r : Rec) (he : lookupE h p = .ok r) :
    ptrOkB h p = true := by
  rw [ptrOkB, lookupE_ok h p r he]
  simp

theorem firstLoop_ptrOk (h : Heap) : ∀ fuel p q, firstLoop h fuel p = .ok q →
    ptrOkB h q = true := by
  intro fuel
  induction fuel with
  | zero => intro p q hq; cases hq
  | succ f ih =>
    intro p q hq
    rw [firstLoop] at hq
    split at hq
    · cases hq
    · rename_i r he
      split at hq
      · cases hq; exact lookupE_ptrOk h _ r he
      · exact ih _ _ hq

theorem lastLoop_ptrOk (h : Heap) : ∀ fuel p q, lastLoop h fuel p = .ok q →
    ptrOkB h q = true := by
  intro fuel
  induction fuel with
  | zero => intro p q hq; cases hq
  | succ f ih =>
    intro p q hq
    rw [lastLoop] at hq
    split at hq
    · cases hq
    · rename_i r he
      split at hq
      · cases hq; exact lookupE_ptrOk h _ r he
      · exact ih _ _ hq

theorem firstU_ptrOk (h : Heap) (fuel : Nat) (p q : Ptr)
    (hq : firstU h fuel p = .ok q) : ptrOkB h q = true := by
  rw [firstU] at hq
  split at hq
  · cases hq; rename_i hp; simp [ptrOkB, hp]
  · exact firstLoop_ptrOk h fuel p q hq

theorem lastU_ptrOk (h : Heap) (fuel : Nat) (p q : Ptr)
    (hq : lastU h fuel p = .ok q) : ptrOkB h q = true := by
  rw [lastU] at hq
  split at hq
  · cases hq; rename_i hp; simp [ptrOkB, hp]
  · exact lastLoop_ptrOk h fuel p q hq

theorem searchLoop_ptrOk (cmp : Cmp) (h : Heap) (k : Int)
    (hc : heapClosedB h = true) : ∀ fuel ret q, ptrOkB h ret = true →
    searchLoop cmp h k fuel ret = .ok q → ptrOkB h q = true := by
  intro fuel
  induction fuel with
  | zero => intro ret q _ hq; cases hq
  | succ f ih =>
    intro ret q hok hq
    rw [searchLoop] at hq
    split at hq
    · cases hq; exact hok
    · split at hq
      · cases hq
      · split at hq
        · cases hq
        · rename_i r he
          have hlh := lookupE_ok h ret r he
          have hch := heapClosed_children h hc ret r hlh
          split at hq
          · exact ih _ _ hch.1 hq
          · exact ih _ _ hch.1 hq
          · exact ih _ _ hch.2 hq
          · cases hq; exact hok

theorem nsearchLoop_ptrOk (cmp : Cmp) (h : Heap) (k : Int)
    (hc : heapClosedB h = true) : ∀ fuel ret tnode q, ptrOkB h ret = true →
    ptrOkB h tnode = true → nsearchLoop cmp h k fuel ret tnode = .ok q →
    ptrOkB h q = true := by
  intro fuel
  induction fuel with
  | zero => intro ret tnode q _ _ hq; cases hq
  | succ f ih =>
    intro ret tnode q hro hto hq
    rw [nsearchLoop] at hq
    split at hq
    · cases hq; exact hro
    · split at hq
      · cases hq
      · split at hq
        · split at hq
          · cases hq
          · rename_i r he
            have hch := heapClosed_children h hc tnode r (lookupE_ok h tnode r he)
            exact ih _ _ _ hto hch.1 hq
        · split at hq
          · cases hq
          · rename_i r he
            have hch := heapClosed_children h hc tnode r (lookupE_ok h tnode r he)
            exact ih _ _ _ hto hch.1 hq
        · split at hq
          · cases hq
          · rename_i r he
            have hch := heapClosed_children h hc ret r (lookupE_ok h ret r he)
            exact ih _ _ _ hro hch.2 hq
        · cases hq; exact hto

theorem psearchLoop_ptrOk (cmp : Cmp) (h : Heap) (k : Int)
    (hc : heapClosedB h = true) : ∀ fuel ret tnode q, ptrOkB h ret = true →
    ptrOkB h tnode = true → psearchLoop cmp h k fuel ret tnode = .ok q →
    ptrOkB h q = true := by
  intro fuel
  induction fuel with
  | zero => intro ret tnode q _ _ hq; cases hq
  | succ f ih =>
    intro ret tnode q hro hto hq
    rw [psearchLoop] at hq
    split at hq
    · cases hq; exact hro
    · split at hq
      · cases hq
      · split at hq
        · split at hq
          · cases hq
          · rename_i r he
            have hch := heapClosed_children h hc ret r (lookupE_ok h ret r he)
            exact ih _ _ _ hro hch.1 hq
        · split at hq
          · cases hq
          · rename_i r he
            have hch := heapClosed_children h hc ret r (lookupE_ok h ret r he)
            exact ih _ _ _ hro hch.1 hq
        · split at hq
          · cases hq
          · rename_i r he
            have hch := heapClosed_children h hc tnode r (lookupE_ok h tnode r he)
            exact ih _ _ _ hto hch.2 hq
        · cases hq; exact hto

theorem nextLoop_ptrOk (cmp : Cmp) (h : Heap) (np : Ptr)
    (hc : heapClosedB h = true) : ∀ fuel tnode ret q, ptrOkB h tnode = true →
    ptrOkB h ret = true → nextLoop cmp h np fuel tnode ret = .ok q →
    ptrOkB h q = true := by
  intro fuel
  induction fuel with
  | zero => intro tnode ret q _ _ hq; cases hq
  | succ f ih =>
    intro tnode ret q hto hro hq
    rw [nextLoop] at hq
    split at hq
    · cases hq
    · split at hq
      · split at hq
        · cases hq
        · rename_i r he
          have hch := heapClosed_children h hc tnode r (lookupE_ok h tnode r he)
          split at hq
          · cases hq
          · exact ih _ _ _ hch.1 hto hq
      · split at hq
        · cases hq
        · rename_i r he
          have hch := heapClosed_children h hc tnode r (lookupE_ok h tnode r he)
          split at hq
          · cases hq
          · exact ih _ _ _ hch.1 hto hq
      · split at hq
        · cases hq
        · rename_i r he
          have hch := heapClosed_children h hc tnode r (lookupE_ok h tnode r he)
          split at hq
          · cases hq
          · exact ih _ _ _ hch.2 hro hq
      · cases hq; exact hro

theorem prevLoop_ptrOk (cmp : Cmp) (h : Heap) (np : Ptr)
    (hc : heapClosedB h = true) : ∀ fuel tnode ret q, ptrOkB h tnode = true →
    ptrOkB h ret = true → prevLoop cmp h np fuel tnode ret = .ok q →
    ptrOkB h q = true := by
  intro fuel
  induction fuel with
  | zero => intro tnode ret q _ _ hq; cases hq
  | succ f ih =>
    intro tnode ret q hto hro hq
    rw [prevLoop] at hq
    split at hq
    · cases hq
    · split at hq
      · split at hq
        · cases hq
        · rename_i r he
          have hch := heapClosed_children h hc tnode r (lookupE_ok h tnode r he)
          split at hq
          · cases hq
          · exact ih _ _ _ hch.1 hro hq
      · split at hq
        · cases hq
        · rename_i r he
          have hch := heapClosed_children h hc tnode r (lookupE_ok h tnode r he)
          split at hq
          · cases hq
          · exact ih _ _ _ hch.1 hro hq
      · split at hq
        · cases hq
        · rename_i r he
          have hch := heapClosed_children h hc tnode r (lookupE_ok h tnode r he)
          split at hq
          · cases hq
          · exact ih _ _ _ hch.2 hto hq
      · cases hq; exact hro

theorem sanitize_spec (h : Heap) (q : Ptr) (hq : ptrOkB h q = true) :
    sanitize q ≠ nilP ∧ (sanitize q = 0 ∨ (lookupH h (sanitize q)).isSome) := by
  rw [sanitize]
  split
  · exact ⟨by simp [nilP], Or.inl rfl⟩
  · rename_i hne
    refine ⟨hne, ?_⟩
    rw [ptrOkB] at hq
    simp only [Bool.or_eq_true, beq_iff_eq] at hq
    rcases hq with h1 | h2
    · exact absurd h1 hne
    · exact Or.inr h2

/-- C10: on any closed store with a valid root, no public query ever
returns the internal sentinel: `first`, `last`, `search`, `nsearch`,
`psearch`, `next` and `prev` yield either the null "no element" pointer
or an allocated non-sentinel element, the sentinel result having been
mapped to null by `sanitize` before return. -/
theorem c10_queries_never_expose_sentinel :
    (∀ h fuel root p h2, heapClosedB h = true → ptrOkB h root = true →
       firstS h fuel root = .ok (p, h2) →
       p ≠ nilP ∧ (p = 0 ∨ (lookupH h p).isSome)) ∧
    (∀ h fuel root p h2, heapClosedB h = true → ptrOkB h root = true →
       lastS h fuel root = .ok (p, h2) →
       p ≠ nilP ∧ (p = 0 ∨ (lookupH h p).isSome)) ∧
    (∀ cmp fuel h k root p h2, heapClosedB h = true → ptrOkB h root = true →
       searchS cmp fuel h k root = .ok (p, h2) →
       p ≠ nilP ∧ (p = 0 ∨ (lookupH h p).isSome)) ∧
    (∀ cmp fuel h k root p h2, heapClosedB h = true → ptrOkB h root = true →
       nsearchS cmp fuel h k root = .ok (p, h2) →
       p ≠ nilP ∧ (p = 0 ∨ (lookupH h p).isSome)) ∧
    (∀ cmp fuel h k root p h2, heapClosedB h = true → ptrOkB h root = true →
       psearchS cmp fuel h k root = .ok (p, h2) →
       p ≠ nilP ∧ (p = 0 ∨ (lookupH h p).isSome)) ∧
    (∀ cmp fuel h root np p h2, heapClosedB h = true → ptrOkB h root = true →
       nextS cmp fuel h root np = .ok (p, h2) →
       p ≠ nilP ∧ (p = 0 ∨ (lookupH h p).isSome)) ∧
    (∀ cmp fuel h root np p h2, heapClosedB h = true → ptrOkB h root = true →
       prevS cmp fuel h root np = .ok (p, h2) →
       p ≠ nilP ∧ (p = 0 ∨ (lookupH h p).isSome)) := by
  refine ⟨?_, ?_, ?_, ?_, ?_, ?_, ?_⟩
  · intro h fuel root p h2 _ _ hr
    rw [firstS] at hr
    split at hr
    · cases hr
    · rename_i q hq
      cases hr
      exact sanitize_spec h q (firstU_ptrOk h fuel root q hq)
  · intro h fuel root p h2 _ _ hr
    rw [lastS] at hr
    split at hr
    · cases hr
    · rename_i q hq
      cases hr
      exact sanitize_spec h q (lastU_ptrOk h fuel root q hq)
  · intro cmp fuel h k root p h2 hc hro hr
    rw [searchS] at hr
    split at hr
    · cases hr
    · rename_i q hq
      cases hr
      exact sanitize_spec h q (searchLoop_ptrOk cmp h k hc fuel root q hro hq)
  · intro cmp fuel h k root p h2 hc hro hr
    rw [nsearchS] at hr
    split at hr
    · cases hr
    · rename_i q hq
      cases hr
      exact sanitize_spec h q
        (nsearchLoop_ptrOk cmp h k hc fuel nilP root q (by simp [ptrOkB]) hro hq)
  · intro cmp fuel h k root p h2 hc hro hr
    rw [psearchS] at hr
    split at hr
    · cases hr
    · rename_i q hq
      cases hr
      exact sanitize_spec h q
        (psearchLoop_ptrOk cmp h k hc fuel nilP root q (by simp [ptrOkB]) hro hq)
  · intro cmp fuel h root np p h2 hc hro hr
    rw [nextS] at hr
    split at hr
    · cases hr
    · split at hr
      · cases hr
      · rename_i nrec hn
        have hch := heapClosed_children h hc np nrec (lookupE_ok h np nrec hn)
        split at hr
        · split at hr
          · cases hr
          · rename_i q hq
            cases hr
            exact sanitize_spec h q (firstU_ptrOk h fuel nrec.right q hq)
        · split at hr
          · cases hr
          · split at hr
            · cases hr
            · rename_i q hq
              cases hr
              exact sanitize_spec h q
                (nextLoop_ptrOk cmp h np hc fuel root nilP q hro (by simp [ptrOkB]) hq)
  · intro cmp fuel h root np p h2 hc hro hr
    rw [prevS] at hr
    split at hr
    · cases hr
    · rename_i nrec hn
      have hch := heapClosed_children h hc np nrec (lookupE_ok h np nrec hn)
      split at hr
      · split at hr
        · cases hr
        · rename_i q hq
          cases hr
          exact sanitize_spec h q (lastU_ptrOk h fuel nrec.left q hq)
      · split at hr
        · cases hr
        · split at hr
          · cases hr
          · rename_i q hq
            cases hr
            exact sanitize_spec h q
              (prevLoop_ptrOk cmp h np hc fuel root nilP q hro (by simp [ptrOkB]) hq)

/-- Witness for C10 at a concrete input: `first` on `heap259` returns
pointer 20 — an allocated element, not the sentinel. -/
theorem c10_queries_never_expose_sentinel_witness :
    (heapClosedB heap259 = true ∧ ptrOkB heap259 10 = true ∧
      firstS heap259 9 10 = .ok (20, heap259)) ∧
    (20 : Ptr) ≠ nilP ∧ ((20 : Ptr) = 0 ∨ (lookupH heap259 20).isSome) :=
  ⟨⟨by decide, by decide, rfl⟩,
    c10_queries_never_expose_sentinel.1 heap259 9 10 20 heap259 (by decide)
      (by decide) rfl⟩

/-! ## Claim C8: `Incomparable` is treated exactly as `Less`

Every direction-taking `match` in the source has the arm
`None | Some(Less)`, so composing the caller's comparison with the
normalisation `Incomparable ↦ Less` changes no operation's result or
final tree state.  For `insert`/`remove` the recorded `PathElem.cmp`
values differ between the two runs (`None` vs `Some(Less)`), so the
proofs relate the two path arrays by that normalisation (`pmap`). -/

/-- Pointwise normalisation: `Incomparable` becomes `Less`. -/
def normc : Option Ordering → Option Ordering
  | none => some .lt
  | c => c

theorem normCmp_apply (cmp : Cmp) (a b : Int) : normCmp cmp a b = normc (cmp a b) := by
  cases hc : cmp a b with
  | none => simp [normCmp, normc, hc]
  | some o => cases o <;> simp [normCmp, normc, hc]

theorem pcmpK_norm (cmp : Cmp) (h : Heap) (a : Int) (b : Ptr) :
    pcmpK (normCmp cmp) h a b = (pcmpK cmp h a b).map normc := by
  rw [pcmpK, pcmpK]
  cases keyE h b with
  | error e => rfl
  | ok kb => simp [Except.map, normCmp_apply]

theorem pcmpPP_norm (cmp : Cmp) (h : Heap) (a b : Ptr) :
    pcmpPP (normCmp cmp) h a b = (pcmpPP cmp h a b).map normc := by
  rw [pcmpPP, pcmpPP]
  cases keyE h a with
  | error e => rfl
  | ok ka =>
    cases keyE h b with
    | error e => rfl
    | ok kb => simp [Except.map, normCmp_apply]

theorem searchLoop_norm (cmp : Cmp) (h : Heap) (k : Int) :
    ∀ fuel ret, searchLoop (normCmp cmp) h k fuel ret = searchLoop cmp h k fuel ret := by
  intro fuel
  induction fuel with
  | zero => intro ret; rfl
  | succ f ih =>
    intro ret
    rw [searchLoop, searchLoop, pcmpK_norm]
    cases pcmpK cmp h k ret with
    | error e => rfl
    | ok c =>
      cases c with
      | none => simp [Except.map, normc, ih]
      | some o => cases o <;> simp [Except.map, normc, ih]

theorem nsearchLoop_norm (cmp : Cmp) (h : Heap) (k : Int) :
    ∀ fuel ret tnode,
      nsearchLoop (normCmp cmp) h k fuel ret tnode = nsearchLoop cmp h k fuel ret tnode := by
  intro fuel
  induction fuel with
  | zero => intro ret tnode; rfl
  | succ f ih =>
    intro ret tnode
    rw [nsearchLoop, nsearchLoop, pcmpK_norm]
    cases pcmpK cmp h k ret with
    | error e => rfl
    | ok c =>
      cases c with
      | none => simp [Except.map, normc, ih]
      | some o => cases o <;> simp [Except.map, normc, ih]

theorem psearchLoop_norm (cmp : Cmp) (h : Heap) (k : Int) :
    ∀ fuel ret tnode,
      psearchLoop (normCmp cmp) h k fuel ret tnode = psearchLoop cmp h k fuel ret tnode := by
  intro fuel
  induction fuel with
  | zero => intro ret tnode; rfl
  | succ f ih =>
    intro ret tnode
    rw [psearchLoop, psearchLoop, pcmpK_norm]
    cases pcmpK cmp h k ret with
    | error e => rfl
    | ok c =>
      cases c with
      | none => simp [Except.map, normc, ih]
      | some o => cases o <;> simp [Except.map, normc, ih]

theorem nextLoop_norm (cmp : Cmp) (h : Heap) (np : Ptr) :
    ∀ fuel tnode ret,
      nextLoop (normCmp cmp) h np fuel tnode ret = nextLoop cmp h np fuel tnode ret := by
  intro fuel
  induction fuel with
  | zero => intro tnode ret; rfl
  | succ f ih =>
    intro tnode ret
    rw [nextLoop, nextLoop, pcmpPP_norm]
    cases pcmpPP cmp h np tnode with
    | error e => rfl
    | ok c =>
      cases c with
      | none => simp [Except.map, normc, ih]
      | some o => cases o <;> simp [Except.map, normc, ih]

theorem prevLoop_norm (cmp : Cmp) (h : Heap) (np : Ptr) :
    ∀ fuel tnode ret,
      prevLoop (normCmp cmp) h np fuel tnode ret = prevLoop cmp h np fuel tnode ret := by
  intro fuel
  induction fuel with
  | zero => intro tnode ret; rfl
  | succ f ih =>
    intro tnode ret
    rw [prevLoop, prevLoop, pcmpPP_norm]
    cases pcmpPP cmp h np tnode with
    | error e => rfl
    | ok c =>
      cases c with
      | none => simp [Except.map, normc, ih]
      | some o => cases o <;> simp [Except.map, normc, ih]

theorem iterStartS_norm {CS A : Type} (cmp : Cmp) (h : Heap)
    (cb : CS → Ptr → CS × Option A) (k : Int) :
    ∀ fuel s p,
      iterStartS (normCmp cmp) h cb k fuel s p = iterStartS cmp h cb k fuel s p := by
  intro fuel
  induction fuel with
  | zero => intro s p; rfl
  | succ f ih =>
    intro s p
    rw [iterStartS, iterStartS, pcmpK_norm]
    cases pcmpK cmp h k p with
    | error e => rfl
    | ok c =>
      cases c with
      | none => simp [Except.map, normc, ih]
      | some o => cases o <;> simp [Except.map, normc, ih]

theorem reverseIterStartS_norm {CS A : Type} (cmp : Cmp) (h : Heap)
    (cb : CS → Ptr → CS × Option A) (k : Int) :
    ∀ fuel s p,
      reverseIterStartS (normCmp cmp) h cb k fuel s p =
        reverseIterStartS cmp h cb k fuel s p := by
  intro fuel
  induction fuel with
  | zero => intro s p; rfl
  | succ f ih =>
    intro s p
    rw [reverseIterStartS, reverseIterStartS, pcmpK_norm]
    cases pcmpK cmp h k p with
    | error e => rfl
    | ok c =>
      cases c with
      | none => simp [Except.map, normc, ih]
      | some o => cases o <;> simp [Except.map, normc, ih]

/-- Normalise one recorded path slot. -/
def smap (s : Slot) : Slot := ⟨s.node, s.cmp.map normc⟩

/-- Normalise a whole path: the relation between the paths recorded by a
run with `cmp` and a run with `normCmp cmp`. -/
def pmap (p : Path) : Path := fun i => smap (p i)

theorem pmap_setSlot (p : Path) (i : Nat) (s : Slot) :
    setSlot (pmap p) i (smap s) = pmap (setSlot p i s) := by
  funext j
  rw [pmap, setSlot, setSlot, pmap]
  split <;> rfl

theorem pmap_node (p : Path) (i : Nat) : (pmap p i).node = (p i).node := rfl

theorem pmap_cmp (p : Path) (i : Nat) : (pmap p i).cmp = ((p i).cmp).map normc := rfl

theorem insStep_norm (h : Heap) (n : Ptr) (prevN : Option Ptr) (cnode : Ptr)
    (c : Option Ordering) :
    insStep h n prevN cnode (normc c) = insStep h n prevN cnode c := by
  cases c with
  | none => rfl
  | some o => cases o <;> rfl

theorem wind_write (p : Path) (i : Nat) (cn child : Ptr) (cL cR : Option Ordering)
    (hc : cL = normc cR) :
    setSlot (setSlot (pmap p) i ⟨some cn, some cL⟩) (i + 1)
        ⟨some child, ((setSlot (pmap p) i ⟨some cn, some cL⟩) (i + 1)).cmp⟩ =
      pmap (setSlot (setSlot p i ⟨some cn, some cR⟩) (i + 1)
        ⟨some child, ((setSlot p i ⟨some cn, some cR⟩) (i + 1)).cmp⟩) := by
  subst hc
  have h1 : (⟨some cn, some (normc cR)⟩ : Slot) = smap ⟨some cn, some cR⟩ := rfl
  rw [h1, pmap_setSlot]
  have h2 : (⟨some child, ((pmap (setSlot p i ⟨some cn, some cR⟩)) (i + 1)).cmp⟩ : Slot) =
      smap ⟨some child, ((setSlot p i ⟨some cn, some cR⟩) (i + 1)).cmp⟩ := rfl
  rw [h2, pmap_setSlot]

theorem windLoop_norm (cmp : Cmp) (h : Heap) (n : Ptr) :
    ∀ gas i p, windLoop (normCmp cmp) h n gas i (pmap p) =
      (windLoop cmp h n gas i p).map pmap := by
  intro gas
  induction gas with
  | zero => intro i p; rfl
  | succ g ih =>
    intro i p
    rw [windLoop, windLoop, pmap_node]
    cases (p i).node with
    | none => rfl
    | some cn =>
      simp only
      split
      · have h1 : (⟨some n, (pmap p i).cmp⟩ : Slot) = smap ⟨some n, (p i).cmp⟩ := rfl
        rw [h1, pmap_setSlot]
        rfl
      · rw [pcmpPP_norm]
        cases pcmpPP cmp h n cn with
        | error e => rfl
        | ok c =>
          cases lookupE h cn with
          | error e =>
            cases c with
            | none => rfl
            | some o => cases o <;> rfl
          | ok r =>
            cases c with
            | none =>
              simp only [Except.map, normc]
              rw [wind_write p i cn r.left (some Ordering.lt) none rfl]
              split
              · exact ih (i + 1) _
              · rfl
            | some o =>
              cases o with
              | lt =>
                simp only [Except.map, normc]
                rw [wind_write p i cn r.left (some Ordering.lt) (some Ordering.lt) rfl]
                split
                · exact ih (i + 1) _
                · rfl
              | eq => rfl
              | gt =>
                simp only [Except.map, normc]
                rw [wind_write p i cn r.right (some Ordering.gt) (some Ordering.gt) rfl]
                split
                · exact ih (i + 1) _
                · rfl

theorem unwindLoop_norm (n root : Ptr) :
    ∀ j h p, unwindLoop n root j h (pmap p) = unwindLoop n root j h p := by
  intro j
  induction j with
  | zero =>
    intro h p
    rw [unwindLoop, unwindLoop, pmap_node]
    cases (p 0).node with
    | none => rfl
    | some cnode =>
      rw [pmap_cmp]
      cases (p 0).cmp with
      | none => rfl
      | some c =>
        simp only [Option.map, pmap_node]
        rw [insStep_norm]
        cases insStep h n ((p 1).node) cnode c with
        | error e => rfl
        | ok o =>
          cases o with
          | ret h1 => rfl
          | cont h1 cn1 => rfl
  | succ j1 ih =>
    intro h p
    rw [unwindLoop, unwindLoop, pmap_node]
    cases (p (j1 + 1)).node with
    | none => rfl
    | some cnode =>
      rw [pmap_cmp]
      cases (p (j1 + 1)).cmp with
      | none => rfl
      | some c =>
        simp only [Option.map, pmap_node]
        rw [insStep_norm]
        cases insStep h n ((p (j1 + 1 + 1)).node) cnode c with
        | error e => rfl
        | ok o =>
          cases o with
          | ret h1 => rfl
          | cont h1 cn1 =>
            have h1e : (⟨some cn1, (pmap p (j1 + 1)).cmp⟩ : Slot) =
                smap ⟨some cn1, (p (j1 + 1)).cmp⟩ := rfl
            simp only
            rw [h1e, pmap_setSlot]
            exact ih h1 _

theorem insertM_norm (cmp : Cmp) (h : Heap) (root n : Ptr) :
    insertM (normCmp cmp) h root n = insertM cmp h root n := by
  have hp0 : pmap (setSlot initPath 0 ⟨some root, (initPath 0).cmp⟩) =
      setSlot initPath 0 ⟨some root, (initPath 0).cmp⟩ := by
    funext i
    by_cases hi : i = 0 <;> simp [pmap, setSlot, smap, initPath, hi]
  have key : ∀ h0 : Heap,
      (match windLoop (normCmp cmp) h0 n 128 0
          (setSlot initPath 0 ⟨some root, (initPath 0).cmp⟩) with
        | .error e => (.error e : Except Err (Heap × Ptr))
        | .ok p1 => unwindLoop n root 126 h0 p1) =
      (match windLoop cmp h0 n 128 0
          (setSlot initPath 0 ⟨some root, (initPath 0).cmp⟩) with
        | .error e => .error e
        | .ok p1 => unwindLoop n root 126 h0 p1) := by
    intro h0
    conv_lhs => rw [← hp0]
    rw [windLoop_norm]
    cases windLoop cmp h0 n 128 0 (setSlot initPath 0 ⟨some root, (initPath 0).cmp⟩) with
    | error e => rfl
    | ok p1 => exact unwindLoop_norm n root 126 h0 p1
  rw [insertM, insertM]
  cases writeE h n (fun r => { r with left := nilP, right := nilP, red := true }) with
  | error e => rfl
  | ok h0 => exact key h0

theorem linkNext_pmap (h : Heap) (p : Path) (i : Nat) (t : Ptr) :
    linkNext h (pmap p) i t = linkNext h p i t := by
  rw [linkNext, linkNext, pmap_cmp, pmap_node]
  cases (p i).cmp with
  | none => rfl
  | some nc =>
    cases nc with
    | none => rfl
    | some o => cases o <;> rfl

theorem setRootOrLink_pmap (h : Heap) (p : Path) (j : Nat) (root t : Ptr) :
    setRootOrLink h (pmap p) j root t = setRootOrLink h p j root t := by
  rw [setRootOrLink, setRootOrLink, linkNext_pmap]

theorem linkAssert_pmap (h : Heap) (p : Path) (j : Nat) (root t : Ptr) :
    linkAssert h (pmap p) j root t = linkAssert h p j root t := by
  rw [linkAssert, linkAssert, linkNext_pmap]

theorem remFinish_pmap (h : Heap) (p : Path) :
    remFinish h (pmap p) = remFinish h p := by
  rw [remFinish, remFinish, pmap_node]

theorem setSlot_pmap_cmp (p : Path) (i : Nat) (t : Ptr)
    (cL cR : Option (Option Ordering)) (hc : cL = cR.map normc) :
    setSlot (pmap p) i ⟨some t, cL⟩ = pmap (setSlot p i ⟨some t, cR⟩) := by
  subst hc
  exact pmap_setSlot p i ⟨some t, cR⟩

set_option maxHeartbeats 4000000 in
theorem remUnwind_pmap (n : Ptr) (iStop : Nat) :
    ∀ j h root p, remUnwind n iStop j h root (pmap p) = remUnwind n iStop j h root p := by
  intro j
  induction j with
  | zero => intro h root p; exact remFinish_pmap h p
  | succ j1 ih =>
    intro h root p
    rw [remUnwind, remUnwind]
    split
    · exact remFinish_pmap h p
    · simp only [pmap_node, pmap_cmp]
      cases (p (j1 + 1)).cmp with
      | none => rfl
      | some c =>
        cases c with
        | none =>
          simp only [Option.map, normc]
          repeat' split
          all_goals try rfl
          all_goals try exact linkAssert_pmap _ _ _ _ _
          all_goals try exact setRootOrLink_pmap _ _ _ _ _
          all_goals rw [setSlot_pmap_cmp _ _ _ (some (some Ordering.lt)) (some none) rfl]
          all_goals exact ih _ _ _
        | some o =>
          cases o with
          | eq => rfl
          | lt =>
            simp only [Option.map, normc]
            repeat' split
            all_goals try rfl
            all_goals try exact linkAssert_pmap _ _ _ _ _
            all_goals try exact setRootOrLink_pmap _ _ _ _ _
            all_goals rw [setSlot_pmap_cmp _ _ _ (some (some Ordering.lt)) (some (some Ordering.lt)) rfl]
            all_goals exact ih _ _ _
          | gt =>
            simp only [Option.map, normc]
            repeat' split
            all_goals try rfl
            all_goals try exact linkAssert_pmap _ _ _ _ _
            all_goals try exact setRootOrLink_pmap _ _ _ _ _
            all_goals exact ih _ _ _

set_option maxHeartbeats 800000 in
theorem afterSplice_pmap (h : Heap) (root n : Ptr) (iStop : Nat) (p : Path) :
    afterSplice h root n iStop (pmap p) = afterSplice h root n iStop p := by
  rw [afterSplice, afterSplice]
  simp only [pmap_node, pmap_cmp]
  cases (p 126).node with
  | none => rfl
  | some cn =>
    simp only
    cases colorE h cn with
    | error e => rfl
    | ok cred =>
      simp only
      cases cred with
      | false =>
        simp only [Bool.false_eq_true, if_false]
        exact remUnwind_pmap n iStop 125 h root p
      | true =>
        simp only [if_true]
        cases (p 125).cmp with
        | none => rfl
        | some nc =>
          cases nc with
          | none => rfl
          | some o => cases o <;> rfl

set_option maxHeartbeats 4000000 in
theorem spliceSwapTail_pmap (h : Heap) (root n : Ptr) (iStop : Nat) (p : Path) :
    spliceSwapTail h root n iStop (pmap p) = spliceSwapTail h root n iStop p := by
  rw [spliceSwapTail, spliceSwapTail]
  simp only [pmap_node]
  cases (p 0).node with
  | none => rfl
  | some ndp =>
    simp only
    exact afterSplice_pmap h ndp n iStop p

set_option maxHeartbeats 4000000 in
theorem splice_write (p : Path) (c126 n : Ptr) :
    setSlot (setSlot (pmap p) 0 ⟨some c126, Option.map normc ((p 0).cmp)⟩) 126
        ⟨some n, ((setSlot (pmap p) 0 ⟨some c126, Option.map normc ((p 0).cmp)⟩) 126).cmp⟩ =
      pmap (setSlot (setSlot p 0 ⟨some c126, (p 0).cmp⟩) 126
        ⟨some n, ((setSlot p 0 ⟨some c126, (p 0).cmp⟩) 126).cmp⟩) := by
  have h1 : (⟨some c126, Option.map normc ((p 0).cmp)⟩ : Slot) =
      smap ⟨some c126, (p 0).cmp⟩ := rfl
  rw [h1, pmap_setSlot]
  have h2 : (⟨some n, ((pmap (setSlot p 0 ⟨some c126, (p 0).cmp⟩)) 126).cmp⟩ : Slot) =
      smap ⟨some n, ((setSlot p 0 ⟨some c126, (p 0).cmp⟩) 126).cmp⟩ := rfl
  rw [h2, pmap_setSlot]

set_option maxHeartbeats 2000000 in
theorem splice_pmap (h : Heap) (root n : Ptr) (iStop : Nat) (p : Path) :
    splice h root n iStop (pmap p) = splice h root n iStop p := by
  rw [splice, splice]
  simp only [pmap_node, pmap_cmp]
  cases (p 126).node with
  | none => rfl
  | some c126 =>
    repeat' split
    all_goals try rfl
    all_goals try (exfalso; first | assumption | exact absurd trivial (by assumption) | omega)
    all_goals try exact afterSplice_pmap _ _ _ _ _
    all_goals (rw [splice_write]; exact spliceSwapTail_pmap _ _ _ _ _)

theorem path_write2 (p : Path) (i j : Nat) (cn child : Ptr) (cL cR : Option Ordering)
    (hc : cL = normc cR) :
    setSlot (setSlot (pmap p) i ⟨some cn, some cL⟩) j
        ⟨some child, ((setSlot (pmap p) i ⟨some cn, some cL⟩) j).cmp⟩ =
      pmap (setSlot (setSlot p i ⟨some cn, some cR⟩) j
        ⟨some child, ((setSlot p i ⟨some cn, some cR⟩) j).cmp⟩) := by
  subst hc
  have h1 : (⟨some cn, some (normc cR)⟩ : Slot) = smap ⟨some cn, some cR⟩ := rfl
  rw [h1, pmap_setSlot]
  have h2 : (⟨some child, ((pmap (setSlot p i ⟨some cn, some cR⟩)) j).cmp⟩ : Slot) =
      smap ⟨some child, ((setSlot p i ⟨some cn, some cR⟩) j).cmp⟩ := rfl
  rw [h2, pmap_setSlot]

set_option maxHeartbeats 4000000 in
theorem remLoop2_pmap (h : Heap) :
    ∀ g i p, remLoop2 h g i (pmap p) =
      (remLoop2 h g i p).map (fun x => (x.1, pmap x.2)) := by
  intro g
  induction g with
  | zero => intro i p; rfl
  | succ g1 ih =>
    intro i p
    rw [remLoop2, remLoop2]
    split
    · rfl
    · rw [pmap_node]
      cases (p i).node with
      | none => rfl
      | some cn =>
        simp only
        split
        · rfl
        · cases lookupE h cn with
          | error e => rfl
          | ok r =>
            simp only [Except.map]
            rw [path_write2 p i (i + 1) cn r.left (some Ordering.lt) (some Ordering.lt) rfl]
            exact ih (i + 1) _

set_option maxHeartbeats 4000000 in
theorem removeRest_pmap (h : Heap) (root n : Ptr) (p : Path) :
    removeRest h root n (pmap p) = removeRest h root n p := by
  rw [removeRest, removeRest, remLoop2_pmap]
  cases remLoop2 h 128 1 p with
  | error e => rfl
  | ok x =>
    obtain ⟨i, p2⟩ := x
    simp only [Except.map, pmap_node]
    cases (p2 0).node with
    | none => rfl
    | some ndp =>
      simp only
      split
      · rfl
      · split
        · rfl
        · exact splice_pmap h root n i p2

set_option maxHeartbeats 4000000 in
theorem remLoop1_norm (cmp : Cmp) (h : Heap) (n : Ptr) :
    ∀ fuel p, remLoop1 (normCmp cmp) h n fuel (pmap p) =
      (remLoop1 cmp h n fuel p).map pmap := by
  intro fuel
  induction fuel with
  | zero => intro p; rfl
  | succ f ih =>
    intro p
    rw [remLoop1, remLoop1, pmap_node]
    cases (p 0).node with
    | none => rfl
    | some cn =>
      simp only
      split
      · rfl
      · rw [pcmpPP_norm]
        cases pcmpPP cmp h n cn with
        | error e => rfl
        | ok c =>
          cases lookupE h cn with
          | error e =>
            cases c with
            | none => rfl
            | some o => cases o <;> rfl
          | ok r =>
            cases c with
            | none =>
              simp only [Except.map, normc]
              rw [path_write2 p 0 1 cn r.left (some Ordering.lt) none rfl]
              exact ih _
            | some o =>
              cases o with
              | lt =>
                simp only [Except.map, normc]
                rw [path_write2 p 0 1 cn r.left (some Ordering.lt) (some Ordering.lt) rfl]
                exact ih _
              | gt =>
                simp only [Except.map, normc]
                rw [path_write2 p 0 1 cn r.right (some Ordering.gt) (some Ordering.gt) rfl]
                exact ih _
              | eq =>
                simp only [Except.map, normc]
                rw [path_write2 p 0 1 cn r.right (some Ordering.eq) (some Ordering.eq) rfl]

set_option maxHeartbeats 4000000 in
theorem removeM_norm (cmp : Cmp) (fuel : Nat) (h : Heap) (root n : Ptr) :
    removeM (normCmp cmp) fuel h root n = removeM cmp fuel h root n := by
  have hp0 : pmap (setSlot initPath 0 ⟨some root, (initPath 0).cmp⟩) =
      setSlot initPath 0 ⟨some root, (initPath 0).cmp⟩ := by
    funext i
    by_cases hi : i = 0 <;> simp [pmap, setSlot, smap, initPath, hi]
  rw [removeM, removeM]
  conv_lhs => rw [← hp0]
  rw [remLoop1_norm]
  cases remLoop1 cmp h n fuel (setSlot initPath 0 ⟨some root, (initPath 0).cmp⟩) with
  | error e => rfl
  | ok p1 =>
    simp only [Except.map]
    rw [show (⟨(pmap p1 0).node, some (some Ordering.gt)⟩ : Slot) =
      smap ⟨(p1 0).node, some (some Ordering.gt)⟩ from rfl, pmap_setSlot]
    exact removeRest_pmap h root n _

/-- C8: every tree operation treats an `Incomparable` comparison result
exactly as `Less`: running `search`, `nsearch`, `psearch`, `next`,
`prev`, `insert`, `remove`, `iter` or `reverse_iter` with the caller's
comparison yields the same result and the same final tree state as
running it with the comparison that first maps `Incomparable` to
`Less`. -/
theorem c8_incomparable_treated_as_less :
    (∀ cmp fuel h k root, searchS (normCmp cmp) fuel h k root = searchS cmp fuel h k root) ∧
    (∀ cmp fuel h k root, nsearchS (normCmp cmp) fuel h k root = nsearchS cmp fuel h k root) ∧
    (∀ cmp fuel h k root, psearchS (normCmp cmp) fuel h k root = psearchS cmp fuel h k root) ∧
    (∀ cmp fuel h root np, nextS (normCmp cmp) fuel h root np = nextS cmp fuel h root np) ∧
    (∀ cmp fuel h root np, prevS (normCmp cmp) fuel h root np = prevS cmp fuel h root np) ∧
    (∀ cmp h root n, insertM (normCmp cmp) h root n = insertM cmp h root n) ∧
    (∀ cmp fuel h root n, removeM (normCmp cmp) fuel h root n = removeM cmp fuel h root n) ∧
    (∀ (CS A : Type) cmp fuel h (cb : CS → Ptr → CS × Option A) s start root,
      iterS (normCmp cmp) fuel h cb s start root = iterS cmp fuel h cb s start root) ∧
    (∀ (CS A : Type) cmp fuel h (cb : CS → Ptr → CS × Option A) s start root,
      reverseIterS (normCmp cmp) fuel h cb s start root =
        reverseIterS cmp fuel h cb s start root) := by
  refine ⟨?_, ?_, ?_, ?_, ?_, ?_, ?_, ?_, ?_⟩
  · intro cmp fuel h k root
    rw [searchS, searchS, searchLoop_norm]
  · intro cmp fuel h k root
    rw [nsearchS, nsearchS, nsearchLoop_norm]
  · intro cmp fuel h k root
    rw [psearchS, psearchS, psearchLoop_norm]
  · intro cmp fuel h root np
    rw [nextS, nextS, nextLoop_norm]
  · intro cmp fuel h root np
    rw [prevS, prevS, prevLoop_norm]
  · intro cmp h root n
    exact insertM_norm cmp h root n
  · intro cmp fuel h root n
    exact removeM_norm cmp fuel h root n
  · intro CS A cmp fuel h cb s start root
    cases start with
    | none => rfl
    | some k => exact iterStartS_norm cmp h cb k fuel s root
  · intro CS A cmp fuel h cb s start root
    cases start with
    | none => rfl
    | some k => exact reverseIterStartS_norm cmp h cb k fuel s root

end RedBlack
